import Mathlib

/-!
# Verification of the searchyfy search-engine core

Shallow embedding of the text-normalization pipelines, the URL frontier,
the indexer batch builder, and the query engine of the `searchyfy`
repository, together with proofs settling the frozen claims about them.

Modelling conventions:

* Go strings are modelled as `List Char` (well-formed Unicode; Go's
  byte-level invalid-UTF-8 stripping is the identity on such values).
* Go `int64`/`int` values are modelled as `Int`; `int32` truncation is
  modelled explicitly by `wrap32` where the source converts.
* Go `float64` is idealized as an ordered field (`ℚ` for executable runs
  of the engine, `ℝ` for the analytic BM25 facts); `math.Log` appears
  either as `Real.log` or as an abstract parameter `logFn`.
* The Porter stemmer is an external library (`reiver/go-porterstemmer`),
  not repository code: it is an abstract parameter `stem : String → String`
  shared by all pipelines, exactly as the one library is shared by the
  source packages.
* Go's `regexp.ReplaceAllString` is modelled by `replaceScan`, which walks
  the text replacing each successive leftmost non-overlapping match; each
  concrete pattern of the source gets a dedicated matcher implementing the
  leftmost-first semantics of that pattern.
-/

namespace Searchyfy

/-! ## Character classes used by the Go source -/

/-- Go `regexp` class `\s` = `[\t\n\f\r ]`. -/
def isRegexSpace (c : Char) : Bool :=
  c = '\t' || c = '\n' || c = '\x0c' || c = '\r' || c = ' '

/-- `unicode.IsSpace` restricted to ASCII (used by `strings.Fields` and
`strings.TrimSpace`); the inputs reaching these calls in the pipelines are
ASCII. -/
def isGoSpace (c : Char) : Bool :=
  c = ' ' || c = '\t' || c = '\n' || c = '\x0b' || c = '\x0c' || c = '\r'

/-- ASCII lowercase letter. -/
def isLowerAlpha (c : Char) : Bool := 'a' ≤ c && c ≤ 'z'

/-- ASCII digit. -/
def isDigit (c : Char) : Bool := '0' ≤ c && c ≤ '9'

/-- Go `regexp` class `\w` = `[0-9A-Za-z_]`. -/
def isWordChar (c : Char) : Bool :=
  isDigit c || isLowerAlpha c || ('A' ≤ c && c ≤ 'Z') || c = '_'

/-- Hex digit as in the source class `[a-f0-9]`. -/
def isHexChar (c : Char) : Bool := isDigit c || ('a' ≤ c && c ≤ 'f')

/-- `strings.ToLower`, restricted to the ASCII case mapping (the pipelines
only ever branch on ASCII letters). -/
def toLowerChar (c : Char) : Char :=
  if 'A' ≤ c && c ≤ 'Z' then Char.ofNat (c.toNat + 32) else c

def toLowerStr (s : List Char) : List Char := s.map toLowerChar

/-- Vowel test from the source (`strings.ContainsRune("aeiou", c)`). -/
def isVowel (c : Char) : Bool :=
  c = 'a' || c = 'e' || c = 'i' || c = 'o' || c = 'u'

def containsVowel (s : List Char) : Bool := s.any isVowel

/-- Length of the longest prefix satisfying `p` (greedy run). -/
def runLen (p : Char → Bool) (cs : List Char) : Nat :=
  (cs.takeWhile p).length

/-! ## Generic leftmost non-overlapping replacement

`replaceScan matchAt cs` mirrors `regexp.ReplaceAllString`: at each
position it asks the pattern matcher `matchAt` for a match starting there;
on a match of length `n` (with replacement `r`, which a capturing pattern
may compute from the match) it emits `r` and resumes after the match,
otherwise it keeps the character and moves on.  All matchers used below
match at least one character. -/

def replaceScanAux (matchAt : List Char → Option (Nat × List Char)) :
    Nat → List Char → List Char
  | 0, _ => []
  | _ + 1, [] => []
  | fuel + 1, c :: cs =>
    match matchAt (c :: cs) with
    | some (n, r) => r ++ replaceScanAux matchAt fuel (cs.drop (n - 1))
    | none => c :: replaceScanAux matchAt fuel cs

/-- Every step consumes at least one character, so fuel `length + 1`
makes the runner total without ever hitting the fuel bound. -/
def replaceScan (matchAt : List Char → Option (Nat × List Char))
    (cs : List Char) : List Char :=
  replaceScanAux matchAt (cs.length + 1) cs

def fieldsAux : Nat → List Char → List (List Char)
  | 0, _ => []
  | _ + 1, [] => []
  | fuel + 1, c :: cs =>
    if isGoSpace c then fieldsAux fuel cs
    else
      ((c :: cs).takeWhile (fun d => !isGoSpace d)) ::
        fieldsAux fuel ((c :: cs).dropWhile (fun d => !isGoSpace d))

/-- `strings.Fields`: split around runs of white space (fuel exceeds the
number of steps, as each step drops at least one character). -/
def fields (cs : List Char) : List (List Char) :=
  fieldsAux (cs.length + 1) cs

/-- `strings.TrimSpace` (ASCII white space). -/
def trimSpace (cs : List Char) : List Char :=
  ((cs.dropWhile isGoSpace).reverse.dropWhile isGoSpace).reverse

/-- `norm.NFC.String`: at every call site in the source the argument has
already been reduced to ASCII letters and white space, on which NFC
normalization is the identity; modelled as such. -/
def nfc (cs : List Char) : List Char := cs

/-- `pat` is a prefix of `cs` (literal-string matching helper). -/
def startsWithCs : List Char → List Char → Bool
  | [], _ => true
  | _ :: _, [] => false
  | p :: ps, c :: cs => p = c && startsWithCs ps cs

/-! ## Matchers for the concrete regular expressions of the source

Each matcher implements the leftmost-first semantics of one Go pattern at
the current position, returning the match length and the replacement. -/

/-- Indexer pattern `<[^>]*>`. -/
def matchAngleAt : List Char → Option (Nat × List Char)
  | '<' :: rest =>
    let k := runLen (fun c => c != '>') rest
    if (rest.drop k).head? = some '>' then some (k + 2, [' ']) else none
  | _ => none

/-- Indexer pattern `[a-z\-]+:\s*[^;]+;` (a CSS declaration).  `[^;]+` is
greedy and cannot cross a `;`, so the match runs to the first `;` after the
colon and requires at least one character before it. -/
def matchCssAt (cs : List Char) : Option (Nat × List Char) :=
  let k := runLen (fun c => isLowerAlpha c || c = '-') cs
  if k = 0 then none else
  match cs.drop k with
  | ':' :: rest =>
    let m := runLen (fun c => c != ';') rest
    if m = 0 then none
    else if (rest.drop m).head? = some ';' then some (k + 1 + m + 1, [' '])
    else none
  | _ => none

/-- Character class `[^",}{\[\]]` of the JSON-fragment pattern. -/
def isJsonValueChar (c : Char) : Bool :=
  !(c = '"' || c = ',' || c = '\x7d' || c = '\x7b' || c = '[' || c = ']')

/-- Indexer pattern `"[^"]+"\s*:\s*"?[^",}{\[\]]*"?` (a JSON key/value
fragment).  After the mandatory `"key":` part every remaining piece is
optional, so the greedy tail never backtracks. -/
def matchJsonAt : List Char → Option (Nat × List Char)
  | '"' :: rest =>
    let j := runLen (fun c => c != '"') rest
    if j = 0 then none else
    match rest.drop j with
    | '"' :: rest2 =>
      let s1 := runLen isRegexSpace rest2
      match rest2.drop s1 with
      | ':' :: rest3 =>
        let s2 := runLen isRegexSpace rest3
        let rest4 := rest3.drop s2
        let q1 : Nat := if rest4.head? = some '"' then 1 else 0
        let rest5 := rest4.drop q1
        let m := runLen isJsonValueChar rest5
        let q2 : Nat := if (rest5.drop m).head? = some '"' then 1 else 0
        some (1 + j + 1 + s1 + 1 + s2 + q1 + m + q2, [' '])
      | _ => none
    | _ => none
  | _ => none

/-- Indexer pattern `[a-f0-9]{32,}\.(jpg|jpeg|png|svg|webp)` (hashed asset
file name).  The alternation is tried in source order. -/
def matchHexAssetAt (cs : List Char) : Option (Nat × List Char) :=
  let h := runLen isHexChar cs
  if h < 32 then none else
  match cs.drop h with
  | '.' :: rest =>
    if startsWithCs "jpg".data rest then some (h + 1 + 3, [' '])
    else if startsWithCs "jpeg".data rest then some (h + 1 + 4, [' '])
    else if startsWithCs "png".data rest then some (h + 1 + 3, [' '])
    else if startsWithCs "svg".data rest then some (h + 1 + 3, [' '])
    else if startsWithCs "webp".data rest then some (h + 1 + 4, [' '])
    else none
  | _ => none

/-- Indexer pattern `https?://[^\s"]+` (absolute URL). -/
def matchUrlAt (cs : List Char) : Option (Nat × List Char) :=
  if startsWithCs "https://".data cs then
    let m := runLen (fun c => !(isRegexSpace c || c = '"')) (cs.drop 8)
    if m = 0 then none else some (8 + m, [' '])
  else if startsWithCs "http://".data cs then
    let m := runLen (fun c => !(isRegexSpace c || c = '"')) (cs.drop 7)
    if m = 0 then none else some (7 + m, [' '])
  else none

/-- Indexer pattern `[\d\-_\.]{6,}` (long digit/hyphen/underscore/dot run). -/
def matchDigitRunAt (cs : List Char) : Option (Nat × List Char) :=
  let r := runLen (fun c => isDigit c || c = '-' || c = '_' || c = '.') cs
  if 6 ≤ r then some (r, [' ']) else none

/-- Indexer pattern `[a-z_]+\([^\)]*\)` (function-call shape). -/
def matchFuncCallAt (cs : List Char) : Option (Nat × List Char) :=
  let k := runLen (fun c => isLowerAlpha c || c = '_') cs
  if k = 0 then none else
  match cs.drop k with
  | '(' :: rest =>
    let m := runLen (fun c => c != ')') rest
    if (rest.drop m).head? = some ')' then some (k + 1 + m + 1, [' '])
    else none
  | _ => none

/-- Citation pattern `\[\d+[letter]*]`, with the letter class and the
replacement as parameters: the indexer uses `[a-z]` and replaces with a
space, the crawler uses `[a-zA-Z]` and deletes the match. -/
def matchCitationAt (letter : Char → Bool) (repl : List Char) :
    List Char → Option (Nat × List Char)
  | '[' :: rest =>
    let d := runLen isDigit rest
    if d = 0 then none else
    let l := runLen letter (rest.drop d)
    if ((rest.drop d).drop l).head? = some ']' then some (1 + d + l + 1, repl)
    else none
  | _ => none

/-- For the lazy group `(.*?)\]\(` of the Markdown-link pattern: index of
the first `](` whose preceding characters contain no newline (`.` does not
match a newline). -/
def findLinkSep : List Char → Option Nat
  | [] => none
  | ']' :: '(' :: _ => some 0
  | c :: rest => if c = '\n' then none else (findLinkSep rest).map (· + 1)

/-- For the lazy group `(.*?)\)`: index of the first `)` with no earlier
newline. -/
def findCloseParen : List Char → Option Nat
  | [] => none
  | ')' :: _ => some 0
  | c :: rest => if c = '\n' then none else (findCloseParen rest).map (· + 1)

/-- Pattern `\[(.*?)\]\((.*?)\)` (Markdown link), shared by both pipelines;
returns the match length and the text of capturing group 1. -/
def matchMarkdownAt : List Char → Option (Nat × List Char)
  | '[' :: rest =>
    match findLinkSep rest with
    | some i =>
      match findCloseParen (rest.drop (i + 2)) with
      | some j => some (1 + i + 2 + j + 1, rest.take i)
      | none => none
    | none => none
  | _ => none

/-- Single-character class `[^a-z\s]`, replaced by a space (both
pipelines). -/
def matchNonAlphaAt : List Char → Option (Nat × List Char)
  | c :: _ => if !(isLowerAlpha c || isRegexSpace c) then some (1, [' ']) else none
  | [] => none

/-- Pattern `\s+`, replaced by a single space (both pipelines). -/
def matchSpaceRunAt (cs : List Char) : Option (Nat × List Char) :=
  let r := runLen isRegexSpace cs
  if r = 0 then none else some (r, [' '])

/-! ## Indexer text pipeline (`internal/indexer`, batch_processor side) -/

/-- Stop words shared verbatim by both packages. -/
def stopWords : List (List Char) :=
  ["a", "an", "the", "and", "or", "but", "is", "are", "in", "on", "it",
   "this", "that", "to", "for", "of", "with"].map String.data

def isStopWord (tok : List Char) : Bool := stopWords.contains tok

/-- `indexer.normalize`: `removeInvalidUTF8` (identity on well-formed
strings), lowercase, the nine strip patterns, `-`/`/` to space, strip
non-alpha, collapse white space, trim, NFC. -/
def normalizeIdx (text : List Char) : List Char :=
  let t := toLowerStr text
  let t := replaceScan matchAngleAt t
  let t := replaceScan matchCssAt t
  let t := replaceScan matchJsonAt t
  let t := replaceScan matchHexAssetAt t
  let t := replaceScan matchUrlAt t
  let t := replaceScan matchDigitRunAt t
  let t := replaceScan matchFuncCallAt t
  let t := replaceScan (matchCitationAt isLowerAlpha [' ']) t
  let t := replaceScan (fun cs => (matchMarkdownAt cs).map (fun p => (p.1, [' ']))) t
  let t := t.map (fun c => if c = '-' then ' ' else c)
  let t := t.map (fun c => if c = '/' then ' ' else c)
  let t := replaceScan matchNonAlphaAt t
  let t := replaceScan matchSpaceRunAt t
  nfc (trimSpace t)

/-- Inner loop of `indexer.hasRepeatedChars`. -/
def repeatedLoop (n : Nat) : Nat → Char → List Char → Bool
  | _, _, [] => false
  | count, prev, c :: rest =>
    if c = prev then
      if n ≤ count + 1 then true else repeatedLoop n (count + 1) prev rest
    else repeatedLoop n 1 c rest

/-- `indexer.hasRepeatedChars`: a run of `n` identical consecutive
characters (the source reads bytes/runes; the tokens here are ASCII). -/
def hasRepeatedChars (tok : List Char) (n : Nat) : Bool :=
  if tok.length < n then false
  else
    match tok with
    | [] => false
    | c :: rest => repeatedLoop n 1 c rest

/-- `indexer.tokenizeAndFilter`: split into fields; drop tokens of length
≤ 1, stop words, vowel-less tokens, and tokens with a run of 3 identical
characters. -/
def tokenizeAndFilterIdx (text : List Char) : List (List Char) :=
  (fields text).filter (fun tok =>
    decide (1 < tok.length) && !isStopWord tok &&
    containsVowel tok && !hasRepeatedChars tok 3)

/-- `indexer.stemTokens`: stem every token, dropping stems of length ≤ 1
or without a vowel.  The Porter stemmer is the abstract `stem`; the
panic-recovery wrapper (which drops the token) has no effect on a total
function. -/
def stemTokensIdx (stem : List Char → List Char) (tokens : List (List Char)) :
    List (List Char) :=
  tokens.foldl (fun res tok =>
    let stemmed := stem tok
    if stemmed.length ≤ 1 || !containsVowel stemmed then res
    else res ++ [stemmed]) []

/-- `indexer.normalizePageContent`: the full indexing-side pipeline. -/
def normalizePageContentIdx (stem : List Char → List Char) (text : List Char) :
    List (List Char) :=
  stemTokensIdx stem (tokenizeAndFilterIdx (normalizeIdx text))

/-! ## Crawler text pipeline (`internal/crawler/normalizer.go`) -/

def isAlphaAscii (c : Char) : Bool := isLowerAlpha c || ('A' ≤ c && c ≤ 'Z')

/-- `crawler.normalize`: lowercase, delete citations, keep the text of
Markdown links, strip non-alpha, collapse white space, trim, NFC. -/
def normalizeCrawl (text : List Char) : List Char :=
  let t := toLowerStr text
  let t := replaceScan (matchCitationAt isAlphaAscii []) t
  let t := replaceScan (fun cs => matchMarkdownAt cs) t
  let t := replaceScan matchNonAlphaAt t
  let t := replaceScan matchSpaceRunAt t
  nfc (trimSpace t)

/-- `crawler.tokenizeAndFilter`: only the stop-word and length filters. -/
def tokenizeAndFilterCrawl (text : List Char) : List (List Char) :=
  (fields text).filter (fun tok => !isStopWord tok && decide (1 < tok.length))

/-- `crawler.stemTokens`: stem every token unconditionally (the recovery
branch re-appends the original token; with a total `stem` it never runs). -/
def stemTokensCrawl (stem : List Char → List Char) (tokens : List (List Char)) :
    List (List Char) :=
  tokens.foldl (fun res tok => res ++ [stem tok]) []

/-- `crawler.normalizePageContent`: the crawler-side pipeline. -/
def normalizePageContentCrawl (stem : List Char → List Char) (text : List Char) :
    List (List Char) :=
  stemTokensCrawl stem (tokenizeAndFilterCrawl (normalizeCrawl text))

/-- Modelled from the spec: `NormalizeText` lives in the package
`internal/common`, whose text files are not under `src/`; the claim set and
the repository README state it is the crawler package's pipeline shared
with the query parser, so it is modelled as `normalizePageContentCrawl`. -/
def NormalizeText (stem : List Char → List Char) (text : List Char) :
    List (List Char) :=
  normalizePageContentCrawl stem text

/-! ## 32-bit integers

`int32` values are modelled as mathematical integers; `wrap32` is the Go
conversion/overflow semantics (two's-complement truncation). -/

def wrap32 (x : Int) : Int := (x + 2 ^ 31) % 2 ^ 32 - 2 ^ 31

/-! ## URL frontier (`internal/crawler/frontier.go`)

The Redis lists are modelled with the head of a `List` as the most
recently `LPush`ed element, so the tail end holds the oldest items.
Items are structured values (`json.Marshal`/`Unmarshal` round-trips
losslessly, so the unmarshal-failure skips never fire). -/

structure CrawlItem where
  url : List Char
  depth : Int
  deriving DecidableEq

inductive FrontierErr where
  | frontierEmpty
  | invalidBatchSize
  deriving DecidableEq

structure FrontierState where
  pending : List CrawlItem
  processing : String → List CrawlItem
  failed : List (CrawlItem × List Char)

/-- `NextBatch`: recovery-first read of `processing:<worker>`
(`LRange 0 (count-1)`); otherwise take the oldest `count` items of
`pending` (`LRange -count -1`), trim them off (`LTrim 0 -(count+1)`) and
`LPush` each onto the worker's processing list, all in one transaction.
`count ≤ 0` is rejected; with `count : Nat` only `0` is representable. -/
def NextBatch (f : FrontierState) (workerID : String) (count : Nat) :
    Except FrontierErr (List CrawlItem × FrontierState) :=
  if count = 0 then .error .invalidBatchSize
  else
    let processingItems := (f.processing workerID).take count
    if processingItems.isEmpty then
      let resp := f.pending.drop (f.pending.length - count)
      if resp.isEmpty then .error .frontierEmpty
      else
        .ok (resp,
          { f with
            pending := f.pending.take (f.pending.length - count)
            processing := fun w =>
              if w = workerID then
                resp.foldl (fun acc it => it :: acc) (f.processing workerID)
              else f.processing w })
    else .ok (processingItems, f)

/-! ## Query parser (`internal/query`, `Parse`) -/

/-- Filter pattern `(\w+):("([^"]+)"|(\S+))` at the current position:
word characters, a colon, then either a non-empty quoted value or a
non-empty run of non-space characters (the quoted branch is tried first).
Returns (match length, group 1 = key, the value: group 3 if the quoted
branch matched, else group 4). -/
def matchFilterAt (cs : List Char) : Option (Nat × List Char × List Char) :=
  let k := runLen isWordChar cs
  if k = 0 then none else
  match cs.drop k with
  | ':' :: rest =>
    let plain : Option (Nat × List Char × List Char) :=
      let m := runLen (fun c => !isRegexSpace c) rest
      if m = 0 then none else some (k + 1 + m, cs.take k, rest.take m)
    match rest with
    | '"' :: rest2 =>
      let j := runLen (fun c => c != '"') rest2
      if j ≠ 0 ∧ (rest2.drop j).head? = some '"' then
        some (k + 1 + j + 2, cs.take k, rest2.take j)
      else plain
    | _ => plain
  | _ => none

/-- `FindAllStringSubmatch`: successive leftmost non-overlapping matches;
returns (matched text, key, value) triples. -/
def findFiltersAux : Nat → List Char → List (List Char × List Char × List Char)
  | 0, _ => []
  | _ + 1, [] => []
  | fuel + 1, c :: cs =>
    match matchFilterAt (c :: cs) with
    | some (n, key, val) =>
      ((c :: cs).take n, key, val) :: findFiltersAux fuel (cs.drop (n - 1))
    | none => findFiltersAux fuel cs

def findFilters (cs : List Char) : List (List Char × List Char × List Char) :=
  findFiltersAux (cs.length + 1) cs

/-- `strings.Replace(s, old, \"\", 1)`: delete the first occurrence. -/
def replaceFirst : List Char → List Char → List Char
  | [], _ => []
  | c :: rest, sub =>
    if !sub.isEmpty && startsWithCs sub (c :: rest) then (c :: rest).drop sub.length
    else c :: replaceFirst rest sub

/-- `strings.Contains`. -/
def hasSubstr : List Char → List Char → Bool
  | cs, [] => (cs.isEmpty || true)
  | [], _ :: _ => false
  | c :: rest, sub => startsWithCs sub (c :: rest) || hasSubstr rest sub

/-- Go `map[string]string` write (later writes to a key overwrite). -/
def updateAssoc (m : List (List Char × List Char)) (k v : List Char) :
    List (List Char × List Char) :=
  m.filter (fun p => p.1 ≠ k) ++ [(k, v)]

def lookupAssoc (m : List (List Char × List Char)) (k : List Char) :
    Option (List Char) :=
  (m.find? (fun p => p.1 = k)).map (·.2)

structure QueryPlan where
  rawQuery : List Char
  terms : List (List Char)
  termIDs : List Int
  operator : String
  page : Nat
  pageSize : Nat
  filters : List (List Char × List Char)
  deriving DecidableEq

/-- `Parse`: extract `key:value` filters (removing each matched text from
the query), pick the operator — `PHRASE` if a `"` remains, else `OR` if
the substring `OR` remains, else `AND` — and tokenize the remainder with
the shared `NormalizeText`, keeping non-empty terms. -/
def Parse (stem : List Char → List Char) (rawQuery : List Char)
    (page pageSize : Nat) : QueryPlan :=
  let filterMatches := findFilters rawQuery
  let filters := filterMatches.foldl
    (fun m t => updateAssoc m (toLowerStr t.2.1) t.2.2) []
  let cleaned := filterMatches.foldl (fun s t => replaceFirst s t.1) rawQuery
  let operator :=
    if cleaned.contains '"' then "PHRASE"
    else if hasSubstr cleaned "OR".data then "OR"
    else "AND"
  let terms := (NormalizeText stem cleaned).filter (fun t => !t.isEmpty)
  { rawQuery := rawQuery, terms := terms, termIDs := [], operator := operator,
    page := page, pageSize := pageSize, filters := filters }

/-- The query string after filter removal (the value `Parse` inspects for
the operator decision). -/
def cleanedQuery (rawQuery : List Char) : List Char :=
  (findFilters rawQuery).foldl (fun s t => replaceFirst s t.1) rawQuery

/-! ## Postings store and query engine (`internal/query`)

The relational store is a pure value; each SQL constant of `queries.go`
becomes a Lean function over it.  Where SQL leaves row order unspecified
(`SELECT DISTINCT`, `GROUP BY`) or the source collects results from a Go
map or a worker pool, the model fixes the first-appearance order; no claim
depends on that choice.  LRU caches are read-through (`Get` miss falls
back to the store and `Put` caches the same value), so they are dropped
from the model. -/

structure PgPosting where
  termId : Int
  docId : Int
  positions : List Int
  deriving DecidableEq

structure PgDocument where
  id : Int
  url : List Char
  title : List Char
  description : List Char
  tokenCount : Int
  deriving DecidableEq

structure Database where
  postings : List PgPosting
  documents : List PgDocument
  terms : List (List Char × Int)

/-- Query-side posting row (`models.go`). -/
structure Posting where
  docId : Int
  positions : List Int
  deriving DecidableEq

/-- `SELECT DISTINCT` / `GROUP BY` key order, fixed as first appearance. -/
def distinctKeepFirst (l : List Int) : List Int :=
  l.foldl (fun acc x => if acc.contains x then acc else acc ++ [x]) []

/-- `getTermsBatch` row for one term (`WHERE term = ANY($1)`). -/
def lookupTerm (db : Database) (t : List Char) : Option Int :=
  (db.terms.find? (fun p => p.1 = t)).map (·.2)

/-- `resolveTermIDsBatch`: ids in `plan.terms` order, unknown terms
dropped. -/
def resolveTermIDs (db : Database) (terms : List (List Char)) : List Int :=
  terms.filterMap (lookupTerm db)

/-- `getPostingsByTermIDBatch` for one term id (`ORDER BY term_id, doc_id`). -/
def getPostingsByTerm (db : Database) (termId : Int) : List Posting :=
  ((db.postings.filter (fun p => p.termId = termId)).map
    (fun p => Posting.mk p.docId p.positions)).insertionSort
    (fun a b => a.docId ≤ b.docId)

/-- `getBooleanIntersection`: docs whose number of distinct matching term
ids equals `$2 = len(termIDs)`. -/
def booleanIntersection (db : Database) (termIDs : List Int) : List Int :=
  let rows := db.postings.filter (fun p => termIDs.contains p.termId)
  (distinctKeepFirst (rows.map (·.docId))).filter (fun d =>
    (distinctKeepFirst ((rows.filter (fun p => p.docId = d)).map (·.termId))).length
      = termIDs.length)

/-- `getBooleanUnion`: `SELECT DISTINCT doc_id`. -/
def booleanUnion (db : Database) (termIDs : List Int) : List Int :=
  distinctKeepFirst
    ((db.postings.filter (fun p => termIDs.contains p.termId)).map (·.docId))

/-- `getSiteFilteredDocs`: `url LIKE '%' || $1 || '%'` (substring; the
filter values contain no SQL wildcards). -/
def siteFilteredDocs (db : Database) (site : List Char) : List Int :=
  (db.documents.filter (fun d => hasSubstr d.url site)).map (·.id)

/-- `booleanSearchOptimized`: empty plan short-circuits; an empty site
filter result returns no docs; otherwise intersection (`AND`) or union
search with the per-row site filter. -/
def booleanSearchOptimized (db : Database) (plan : QueryPlan) : List Int :=
  if plan.termIDs.isEmpty then []
  else
    let base := if plan.operator = "AND" then booleanIntersection db plan.termIDs
                else booleanUnion db plan.termIDs
    match lookupAssoc plan.filters "site".data with
    | some site =>
      let sf := siteFilteredDocs db site
      if sf.isEmpty then [] else base.filter (fun d => sf.contains d)
    | none => base

/-- First posting of the term whose `DocID` matches (the source loop
breaks on the first hit and leaves `nil` positions otherwise). -/
def lookupPositions (docId : Int) (ps : List Posting) : List Int :=
  ((ps.find? (fun p => p.docId = docId)).map (·.positions)).getD []

/-- `checkConsecutiveFromPosition`: for each `i ≥ 1` the value
`startPos + int32(i)` (32-bit arithmetic) occurs in term `i`'s
positions. -/
def checkConsecutiveFromPosition (startPos : Int)
    (termPositions : List (List Int)) : Bool :=
  (List.range' 1 (termPositions.length - 1)).all (fun i =>
    (termPositions.getD i []).any (fun pos => pos = wrap32 (startPos + wrap32 i)))

/-- `hasConsecutivePositions`: some position of the first term starts a
consecutive run. -/
def hasConsecutivePositions (termPositions : List (List Int)) : Bool :=
  match termPositions with
  | [] => false
  | first :: _ => first.any (fun p0 => checkConsecutiveFromPosition p0 termPositions)

/-- `checkPhraseMatch`: gather each term's positions for the doc (the
source returns `false` as soon as a gathered list is empty), then check
for a consecutive run. -/
def checkPhraseMatch (docId : Int) (termIDs : List Int)
    (postingsByTerm : Int → List Posting) : Bool :=
  let termPositions := termIDs.map (fun tid => lookupPositions docId (postingsByTerm tid))
  if termPositions.any (fun l => l.isEmpty) then false
  else hasConsecutivePositions termPositions

/-- `findCommonDocuments`: intersection of the doc sets of all terms
(a Go map in the source; first-term posting order here). -/
def findCommonDocuments (postingsByTerm : Int → List Posting)
    (termIDs : List Int) : List Int :=
  match termIDs with
  | [] => []
  | t0 :: rest =>
    rest.foldl (fun acc tid => acc.filter (fun d => (postingsByTerm tid).any (fun p => p.docId = d)))
      (distinctKeepFirst ((postingsByTerm t0).map (·.docId)))

/-- `phraseSearchOptimized`: fall back to boolean search for fewer than two
term ids; any term without postings, or an empty intersection, yields no
candidates; otherwise keep the common docs that phrase-match (the worker
pool of the source writes in arbitrary order; candidate order here). -/
def phraseSearchOptimized (db : Database) (plan : QueryPlan) : List Int :=
  if plan.termIDs.length < 2 then booleanSearchOptimized db plan
  else
    let pbt := fun tid => getPostingsByTerm db tid
    if plan.termIDs.any (fun tid => (pbt tid).isEmpty) then []
    else
      let common := findCommonDocuments pbt plan.termIDs
      if common.isEmpty then []
      else common.filter (fun d => checkPhraseMatch d plan.termIDs pbt)

/-! ## BM25 ranking (`internal/query/ranking.go`, `utils.go`)

`float64` is idealized as a linear ordered field; `math.Log` is the
abstract `logFn` (instantiated with `Real.log` for the analytic claims). -/

section Ranking

variable {α : Type} [LinearOrderedField α]

structure DocumentLength (α : Type) where
  docId : Int
  tokenCount : Int
  normalized : α
  deriving DecidableEq

structure ScoredDoc (α : Type) where
  docId : Int
  score : α
  deriving DecidableEq

/-- `getDocumentLengthsBatch` for one doc, including the Go zero value a
missing row leaves behind in `docLengths[docID]`. -/
def docLengthOf (db : Database) (avg : α) (d : Int) : DocumentLength α :=
  match db.documents.find? (fun doc => doc.id = d) with
  | some doc => ⟨d, doc.tokenCount, (doc.tokenCount : α) / avg⟩
  | none => ⟨0, 0, 0⟩

/-- `getTermFrequenciesBatch` for one `(doc, term)` key:
`array_length(positions, 1)`, with the Go map default 0 when the posting
row is absent (postings are non-empty, so `NULL` lengths do not arise). -/
def termFreq (db : Database) (d t : Int) : Nat :=
  match db.postings.find? (fun p => p.docId = d && p.termId = t) with
  | some p => p.positions.length
  | none => 0

/-- `getDocFrequencyBatch` for one term: `COUNT(DISTINCT doc_id)`;
`GROUP BY term_id` produces a row only for terms with at least one
posting. -/
def docFrequency (db : Database) (t : Int) : Option Nat :=
  let docs := distinctKeepFirst ((db.postings.filter (fun p => p.termId = t)).map (·.docId))
  if docs.isEmpty then none else some docs.length

/-- `getIDFBatch`: `idf = log(totalDocs / (docFreq + 1))` for each
requested term that has a document frequency row; other terms stay
missing from the map. -/
def getIDFBatch (logFn : α → α) (totalDocs : Int) (db : Database)
    (termIDs : List Int) : Int → Option α :=
  fun t =>
    if termIDs.contains t then
      (docFrequency db t).map (fun df => logFn ((totalDocs : α) / ((df : α) + 1)))
    else none

/-- Loop body of `calculateBM25Score` (`k1 = 1.2`, `b = 0.75`): a term
with zero term frequency or no IDF entry contributes nothing, otherwise
`idf * (tf*(k1+1)) / (tf + k1*(1 - b + b*|d|/avgdl))` is added. -/
def bm25Step (docId : Int) (docLength : DocumentLength α)
    (idfValues : Int → Option α) (termFreqs : Int → Int → Nat)
    (score : α) (termID : Int) : α :=
  let tf := termFreqs docId termID
  if tf = 0 then score
  else
    match idfValues termID with
    | none => score
    | some idf =>
      let k1 : α := 12 / 10
      let b : α := 3 / 4
      let tfComponent := (tf : α) * (k1 + 1)
      let denominator := (tf : α) + k1 * (1 - b + b * docLength.normalized)
      score + idf * (tfComponent / denominator)

/-- `calculateBM25Score`: fold `bm25Step` over the query terms. -/
def calculateBM25Score (docId : Int) (termIDs : List Int)
    (docLength : DocumentLength α) (idfValues : Int → Option α)
    (termFreqs : Int → Int → Nat) : α :=
  termIDs.foldl (bm25Step docId docLength idfValues termFreqs) 0

/-- `sort.Slice(scoredDocs, Score > Score)`: descending by score.  The
source sort is unstable; the model fixes a stable insertion sort — every
claim uses only that the output is a score-sorted permutation. -/
def sortByScoreDesc (l : List (ScoredDoc α)) : List (ScoredDoc α) :=
  l.insertionSort (fun x y => y.score ≤ x.score)

/-- `rankResultsOptimized`: batch-load lengths, IDFs and term frequencies,
score every candidate (the worker pool writes each doc's score to its own
slot, keeping candidate order), and sort descending. -/
def rankResultsOptimized (db : Database) (logFn : α → α) (totalDocs : Int)
    (avg : α) (docIDs : List Int) (termIDs : List Int) : List (ScoredDoc α) :=
  if docIDs.isEmpty then []
  else
    let idfValues := getIDFBatch logFn totalDocs db termIDs
    sortByScoreDesc (docIDs.map (fun d =>
      ⟨d, calculateBM25Score d termIDs (docLengthOf db avg d) idfValues (termFreq db)⟩))

end Ranking

/-! ## Result assembly (`internal/query/results.go`) -/

structure SearchResult (α : Type) where
  docId : Int
  url : List Char
  title : List Char
  description : List Char
  score : α
  snippet : List Char
  deriving DecidableEq

/-- Presentation helpers `generateEnhancedSnippet` and `highlightTerms`
(regex-based string decoration) are modelled opaquely: no claim depends on
the decorated text, only on which documents appear. -/
structure Presentation where
  snippetOf : List Char → List (List Char) → Nat → List Char
  highlightOf : List Char → List (List Char) → List Char

/-- `getDocumentDetailsBatch` row for one doc id. -/
def getDocumentDetails (db : Database) (d : Int) : Option PgDocument :=
  db.documents.find? (fun doc => doc.id = d)

/-- `fetchDocumentDetailsBatch`: keep scored order, silently skipping docs
whose row is missing; decorate title and snippet. -/
def fetchDocumentDetailsBatch {α : Type} (db : Database) (pres : Presentation)
    (scoredDocs : List (ScoredDoc α)) (queryTerms : List (List Char)) :
    List (SearchResult α) :=
  scoredDocs.filterMap (fun sd =>
    (getDocumentDetails db sd.docId).map (fun doc =>
      { docId := sd.docId, url := doc.url,
        title := pres.highlightOf doc.title queryTerms,
        description := doc.description, score := sd.score,
        snippet := pres.snippetOf doc.description queryTerms 150 }))

/-- `strings.TrimRight(url, "/")`: remove all trailing slashes. -/
def trimRightSlashes (cs : List Char) : List Char :=
  (cs.reverse.dropWhile (fun c => c = '/')).reverse

/-- URL key used by `deduplicateResults`. -/
def normalizeResultURL (cs : List Char) : List Char :=
  toLowerStr (trimRightSlashes cs)

/-- `deduplicateResults`: keep the first result for each normalized URL.
This function exists in the source but `Search` never invokes it. -/
def deduplicateResults {α : Type} (results : List (SearchResult α)) :
    List (SearchResult α) :=
  if results.length ≤ 1 then results
  else
    (results.foldl (fun acc r =>
      let n := normalizeResultURL r.url
      if acc.2.contains n then acc else (acc.1 ++ [r], n :: acc.2))
      (([] : List (SearchResult α)), ([] : List (List Char)))).1

/-! ## `Search` (`internal/query/engine.go`) -/

section Engine

variable {α : Type} [LinearOrderedField α]

/-- Engine-level parameters: the shared stemmer, the `math.Log` model, the
cached global stats (`totalDocs`, `avgTokenCount` as read from the atomic
fields), and the opaque presentation helpers. -/
structure EngineModel (α : Type) where
  stem : List Char → List Char
  logFn : α → α
  totalDocs : Int
  avgTokenCount : α
  pres : Presentation

/-- Store-level failures surfacing from `Search`; the pure store model
never produces them. -/
inductive SearchError where
  | termResolutionFailed
  | searchFailed
  | rankingFailed
  | fetchDetailsFailed
  deriving DecidableEq

/-- The page slice of `Search`: `[(page-1)*pageSize, page*pageSize)` with
the end clamped to `total`; the source's early return for
`startIdx >= total` is the `[]` branch. -/
def paginateScored (scoredDocs : List (ScoredDoc α)) (page pageSize : Nat) :
    List (ScoredDoc α) :=
  let total := scoredDocs.length
  let startIdx := (page - 1) * pageSize
  let endIdx := startIdx + pageSize
  if total ≤ startIdx then []
  else (scoredDocs.take (if total < endIdx then total else endIdx)).drop startIdx

/-- Candidate selection of `Search`: parse, resolve term ids, then phrase
or boolean search (empty at every early return of the source). -/
def searchCandidates (db : Database) (eng : EngineModel α) (rawQuery : List Char)
    (page pageSize : Nat) : QueryPlan × List Int :=
  let plan := Parse eng.stem rawQuery page pageSize
  if plan.terms.isEmpty then (plan, [])
  else
    let plan := { plan with termIDs := resolveTermIDs db plan.terms }
    if plan.termIDs.isEmpty then (plan, [])
    else
      (plan,
        if plan.operator = "PHRASE" then phraseSearchOptimized db plan
        else booleanSearchOptimized db plan)

/-- The ranked candidate list a `Search` call works from (empty whenever
the source returns early). -/
def searchScoredDocs (db : Database) (eng : EngineModel α) (rawQuery : List Char)
    (page pageSize : Nat) : List (ScoredDoc α) :=
  let (plan, docIDs) := searchCandidates db eng rawQuery page pageSize
  if docIDs.isEmpty then []
  else rankResultsOptimized db eng.logFn eng.totalDocs eng.avgTokenCount docIDs plan.termIDs

/-- `Search`: parse, resolve, select, rank, paginate, assemble; returns
`(results, total)`.  Elapsed wall-clock time is not modelled.  Queries
with no surviving terms, no resolvable term ids, or no candidates return
`([], 0)` without error. -/
def Search (db : Database) (eng : EngineModel α) (rawQuery : List Char)
    (page pageSize : Nat) : Except SearchError (List (SearchResult α) × Nat) :=
  let plan := Parse eng.stem rawQuery page pageSize
  if plan.terms.isEmpty then .ok ([], 0)
  else
    let plan := { plan with termIDs := resolveTermIDs db plan.terms }
    if plan.termIDs.isEmpty then .ok ([], 0)
    else
      let docIDs := if plan.operator = "PHRASE" then phraseSearchOptimized db plan
                    else booleanSearchOptimized db plan
      if docIDs.isEmpty then .ok ([], 0)
      else
        let scoredDocs := rankResultsOptimized db eng.logFn eng.totalDocs
          eng.avgTokenCount docIDs plan.termIDs
        let total := scoredDocs.length
        .ok (fetchDocumentDetailsBatch db eng.pres
              (paginateScored scoredDocs plan.page plan.pageSize) plan.terms,
             total)

end Engine

/-! ## Indexer batch construction (`internal/indexer/batch_processor.go`,
`queries.go`) -/

/-- Raw page fields consumed by `CreateBatch`. -/
structure WebPage where
  title : List Char
  description : List Char
  bodyText : List Char
  paragraphs : List (List Char)

/-- `doc.Title + " " + doc.Description + " " + doc.BodyText + " " +
strings.Join(doc.Paragraphs, " ")`. -/
def pageText (d : WebPage) : List Char :=
  d.title ++ " ".data ++ d.description ++ " ".data ++ d.bodyText ++ " ".data ++
    List.intercalate " ".data d.paragraphs

/-- The positions appended to `termMap[token][docIdx]` by
`for pos, token := range tokens`: the emission indices of `t`, in emission
order. -/
def emissionPositions (tokens : List (List Char)) (t : List Char) : List Nat :=
  tokens.enum.foldl (fun acc pt => if pt.2 = t then acc ++ [pt.1] else acc) []

/-- The batch built by `CreateBatch`: per-doc token counts (written back
into `docs[docIdx].TokenCount`) and the nested position map, viewed as a
function of term and doc index. -/
structure Batch where
  docs : List WebPage
  tokenCounts : List Nat
  termMap : List Char → Nat → List Nat

/-- `CreateBatch`: tokenize each page with the indexer pipeline, record
`TokenCount = len(tokens)` and the positional emissions per term. -/
def CreateBatch (stem : List Char → List Char) (docs : List WebPage) : Batch where
  docs := docs
  tokenCounts := docs.map (fun d => (normalizePageContentIdx stem (pageText d)).length)
  termMap := fun t dIdx =>
    match docs.get? dIdx with
    | some d => emissionPositions (normalizePageContentIdx stem (pageText d)) t
    | none => []

/-- The `int32` conversion `InsertPosting` applies to each position before
the upsert (`int32Positions[i] = int32(p)`). -/
def insertPostingPositions (positions : List Nat) : List Int :=
  positions.map (fun p => wrap32 (p : Int))

/-! ## HTTP search handler (`pkg/search/api.go`) -/

/-- `strconv.Atoi` on a 64-bit platform: optional sign, at least one
digit, nothing else, result within `int64` (out-of-range input returns
`ErrRange`, which the handler treats as failure). -/
def goAtoi (s : List Char) : Option Int :=
  let signed : Int × List Char :=
    match s with
    | '+' :: rest => (1, rest)
    | '-' :: rest => (-1, rest)
    | rest => (1, rest)
  if signed.2.isEmpty || signed.2.any (fun c => !isDigit c) then none
  else
    let v : Int := signed.1 *
      (signed.2.foldl (fun acc c => acc * 10 + ((c.toNat - '0'.toNat : Nat) : Int)) 0)
    if v < -(2 ^ 63) || 2 ^ 63 - 1 < v then none else some v

/-- The page number `searchHandler` uses: `c.Query("page", "1")` parsed,
replaced by 1 on parse failure or a value below 1. -/
def effectivePage (pageParam : Option (List Char)) : Int :=
  match goAtoi (pageParam.getD "1".data) with
  | some v => if v < 1 then 1 else v
  | none => 1

/-- The page size `searchHandler` uses: `c.Query("page_size", "10")`
parsed, replaced by 10 on parse failure or a value outside `[1, 100]`. -/
def effectivePageSize (sizeParam : Option (List Char)) : Int :=
  match goAtoi (sizeParam.getD "10".data) with
  | some v => if v < 1 || 100 < v then 10 else v
  | none => 10

/-- JSON body of a successful response. -/
structure SearchResponse (α : Type) where
  query : List Char
  page : Int
  pageSize : Int
  total : Nat
  totalPages : Int
  results : List (SearchResult α)

inductive HandlerResult (α : Type) where
  | ok (resp : SearchResponse α)
  | serverError

/-- `searchHandler`: normalize the pagination parameters, call the engine,
map an engine error to HTTP 500 and success to the JSON body. -/
def searchHandler {α : Type}
    (searchFn : List Char → Nat → Nat → Except SearchError (List (SearchResult α) × Nat))
    (qParam pageParam sizeParam : Option (List Char)) : HandlerResult α :=
  let queryStr := qParam.getD []
  let page := effectivePage pageParam
  let pageSize := effectivePageSize sizeParam
  match searchFn queryStr page.toNat pageSize.toNat with
  | .error _ => .serverError
  | .ok (results, total) =>
    .ok { query := queryStr, page := page, pageSize := pageSize, total := total,
          totalPages := ((total : Int) + pageSize - 1) / pageSize, results := results }

/-! ## Concrete instances used by witnesses and counterexamples -/

/-- A two-document store whose documents share a URL up to the trailing
slash; term `dog` has id 10 and occurs once in each document. -/
def dbW : Database :=
  ⟨[⟨10, 1, [0]⟩, ⟨10, 2, [0]⟩],
   [⟨1, "http://example.com".data, "Dog".data, "all about dogs".data, 1⟩,
    ⟨2, "http://example.com/".data, "Dog mirror".data, "dogs again".data, 1⟩],
   [("dog".data, 10)]⟩

/-- Engine over `ℚ` with the identity stemmer and `logFn = id`. -/
def engW : EngineModel ℚ :=
  ⟨fun t => t, id, 2, 1, ⟨fun d _ _ => d, fun t _ => t⟩⟩

/-! ## Proof-side auxiliary definitions -/

/-- One term's contribution to `calculateBM25Score`. -/
def bm25Contribution {α : Type} [LinearOrderedField α] (docId : Int)
    (docLength : DocumentLength α) (idfValues : Int → Option α)
    (termFreqs : Int → Int → Nat) (termID : Int) : α :=
  let tf := termFreqs docId termID
  if tf = 0 then 0
  else
    match idfValues termID with
    | none => 0
    | some idf =>
      idf * (((tf : α) * (12 / 10 + 1)) /
        ((tf : α) + (12 / 10) * (1 - 3 / 4 + (3 / 4) * docLength.normalized)))

/-- Recursive characterization of the emission positions of `t` starting
at index `n` (proof-side recharacterization of `emissionPositions`). -/
def emAux (t : List Char) : Nat → List (List Char) → List Nat
  | _, [] => []
  | n, x :: xs => (if x = t then [n] else []) ++ emAux t (n + 1) xs

/-- The BM25 score both documents of `dbW` receive for the query `dog`
(their statistics are identical). -/
def scoreW : ℚ :=
  calculateBM25Score 1 [10] (docLengthOf dbW engW.avgTokenCount 1)
      (getIDFBatch engW.logFn engW.totalDocs dbW [10]) (termFreq dbW)

/-! # Theorems -/

/-! ## C1 — the indexing-side and query-side tokenizers -/

/-- C1: the claim states that for every input string the indexing-side
pipeline (`indexer.normalizePageContent`, used by `CreateBatch`) and the
query-side pipeline (`NormalizeText`, used by `Parse`, shared with
`crawler.normalizePageContent`) produce the identical ordered token list.
The code refutes this: on the input `"xyz"` (a token without a vowel) the
indexer pipeline emits no token while the query-side pipeline emits one,
whatever the stemmer does — the crawler-side tokenizer lacks the indexer's
vowel and repeated-character filters, its extra strip patterns, and its
post-stemming filter. -/
theorem C1_pipelines_diverge :
    ∀ stem : List Char → List Char,
      normalizePageContentIdx stem "xyz".data = [] ∧
      NormalizeText stem "xyz".data = [stem "xyz".data] := by
  intro stem
  constructor
  · show stemTokensIdx stem (tokenizeAndFilterIdx (normalizeIdx "xyz".data)) = []
    have h : tokenizeAndFilterIdx (normalizeIdx "xyz".data) = [] := by decide
    rw [h]; rfl
  · show stemTokensCrawl stem (tokenizeAndFilterCrawl (normalizeCrawl "xyz".data))
        = [stem "xyz".data]
    have h : tokenizeAndFilterCrawl (normalizeCrawl "xyz".data) = ["xyz".data] := by
      decide
    rw [h]; rfl

/-! ## C5 — frontier `NextBatch` -/

theorem foldl_cons_reverse {β : Type} (l acc : List β) :
    l.foldl (fun a x => x :: a) acc = l.reverse ++ acc := by
  induction l generalizing acc with
  | nil => simp
  | cons x xs ih => simp [ih]

/-- C5: for every worker and `n > 0`: a non-empty processing list is
returned (its first `n` items) with the state — in particular `pending` —
untouched; otherwise the oldest `min(n, |pending|)` items (the tail end of
the pending list, which is LPush-ordered newest-first) move from `pending`
into that worker's processing list and are returned; and the
frontier-empty error occurs exactly when both lists are empty. -/
theorem C5_NextBatch_spec (f : FrontierState) (w : String) (n : Nat)
    (hn : 0 < n) :
    (f.processing w ≠ [] →
      NextBatch f w n = .ok ((f.processing w).take n, f)) ∧
    (f.processing w = [] → f.pending ≠ [] →
      ∃ rest taken,
        f.pending = rest ++ taken ∧
        taken ≠ [] ∧
        taken.length = min n f.pending.length ∧
        NextBatch f w n =
          .ok (taken,
            { pending := rest,
              processing := fun w' => if w' = w then taken.reverse else f.processing w',
              failed := f.failed })) ∧
    (NextBatch f w n = .error .frontierEmpty ↔
      f.processing w = [] ∧ f.pending = []) := by
  have hn0 : n ≠ 0 := Nat.pos_iff_ne_zero.mp hn
  have hdropne : f.pending ≠ [] →
      (f.pending.drop (f.pending.length - n)).isEmpty = false := by
    intro hpend
    have hlen : f.pending.length ≠ 0 := fun h => hpend (List.length_eq_zero.mp h)
    cases hd : f.pending.drop (f.pending.length - n) with
    | nil =>
      have := congrArg List.length hd
      simp only [List.length_drop, List.length_nil] at this
      omega
    | cons a l => rfl
  have htakene : f.processing w ≠ [] →
      ((f.processing w).take n).isEmpty = false := by
    intro hproc
    cases hpw : f.processing w with
    | nil => exact absurd hpw hproc
    | cons a l =>
      cases n with
      | zero => exact absurd rfl hn0
      | succ m => simp [hpw]
  refine ⟨?_, ?_, ?_⟩
  · intro hproc
    simp [NextBatch, hn0, htakene hproc]
  · intro hproc hpend
    have hlen : f.pending.length ≠ 0 := fun h => hpend (List.length_eq_zero.mp h)
    have htake : ((f.processing w).take n).isEmpty = true := by simp [hproc]
    have hdrop := hdropne hpend
    refine ⟨f.pending.take (f.pending.length - n),
            f.pending.drop (f.pending.length - n),
            (List.take_append_drop _ _).symm, ?_, ?_, ?_⟩
    · intro h
      rw [h] at hdrop
      simp at hdrop
    · simp only [List.length_drop]
      omega
    · have hfun : (fun w' => if w' = w then
            List.foldl (fun acc it => it :: acc) (f.processing w)
              (f.pending.drop (f.pending.length - n))
          else f.processing w')
          = (fun w' => if w' = w then
              (f.pending.drop (f.pending.length - n)).reverse
            else f.processing w') := by
        funext w'
        by_cases hw : w' = w
        · simp [hw, hproc, foldl_cons_reverse]
        · simp [hw]
      simp only [NextBatch, if_neg hn0, htake, hdrop]
      simp only [Bool.false_eq_true, if_false, if_true]
      rw [hfun]
  · constructor
    · intro herr
      by_cases hproc : f.processing w = []
      · refine ⟨hproc, ?_⟩
        by_contra hpend
        have htake : ((f.processing w).take n).isEmpty = true := by simp [hproc]
        simp [NextBatch, hn0, htake, hdropne hpend] at herr
      · simp [NextBatch, hn0, htakene hproc] at herr
    · rintro ⟨hproc, hpend⟩
      have htake : ((f.processing w).take n).isEmpty = true := by simp [hproc]
      have hdrop : (f.pending.drop (f.pending.length - n)).isEmpty = true := by
        simp [hpend]
      simp [NextBatch, hn0, htake, hdrop]

/-- Witness for C5 at a concrete frontier: two pending items, an empty
processing list, batch size 3. -/
theorem C5_NextBatch_spec_witness :
    0 < 3 ∧
    (let f : FrontierState :=
      { pending := [⟨"b".data, 0⟩, ⟨"a".data, 0⟩],
        processing := fun _ => [], failed := [] }
     (f.processing "w1" ≠ [] →
        NextBatch f "w1" 3 = .ok ((f.processing "w1").take 3, f)) ∧
     (f.processing "w1" = [] → f.pending ≠ [] →
       ∃ rest taken,
         f.pending = rest ++ taken ∧
         taken ≠ [] ∧
         taken.length = min 3 f.pending.length ∧
         NextBatch f "w1" 3 =
           .ok (taken,
             { pending := rest,
               processing := fun w' => if w' = "w1" then taken.reverse
                             else f.processing w',
               failed := f.failed })) ∧
     (NextBatch f "w1" 3 = .error .frontierEmpty ↔
       f.processing "w1" = [] ∧ f.pending = [])) :=
  ⟨by decide, C5_NextBatch_spec _ "w1" 3 (by decide)⟩

/-! ## C6 — `Parse` operator selection -/

theorem startsWithCs_iff (sub l : List Char) :
    startsWithCs sub l = true ↔ ∃ rest, l = sub ++ rest := by
  induction sub generalizing l with
  | nil => simp [startsWithCs]
  | cons p ps ih =>
    cases l with
    | nil =>
      simp only [startsWithCs, List.cons_append]
      constructor
      · intro h; exact absurd h (by simp)
      · rintro ⟨rest, h⟩; exact absurd h (by simp)
    | cons c cs =>
      simp only [startsWithCs, Bool.and_eq_true, decide_eq_true_eq, ih,
        List.cons_append, List.cons.injEq]
      constructor
      · rintro ⟨hpc, rest, hrest⟩; exact ⟨rest, hpc.symm, hrest⟩
      · rintro ⟨rest, hpc, hrest⟩; exact ⟨hpc.symm, rest, hrest⟩

theorem hasSubstr_iff (l : List Char) (s : Char) (ss : List Char) :
    hasSubstr l (s :: ss) = true ↔ ∃ pre post, l = pre ++ (s :: ss) ++ post := by
  induction l with
  | nil =>
    simp only [hasSubstr]
    constructor
    · intro h; exact absurd h (by simp)
    · rintro ⟨pre, post, h⟩
      exact absurd h (by simp)
  | cons c cs ih =>
    simp only [hasSubstr, Bool.or_eq_true, startsWithCs_iff, ih]
    constructor
    · rintro (⟨rest, h⟩ | ⟨pre, post, h⟩)
      · exact ⟨[], rest, by simpa using h⟩
      · exact ⟨c :: pre, post, by simp [h]⟩
    · rintro ⟨pre, post, h⟩
      cases pre with
      | nil => exact Or.inl ⟨post, by simpa using h⟩
      | cons p ps =>
        right
        simp only [List.cons_append, List.append_assoc, List.cons.injEq] at h
        exact ⟨ps, post, by simp [h.2]⟩

/-- C6: the claim states the operator is `PHRASE` when the filter-stripped
query contains `"`, else `OR` when it contains the *token* `OR`, else
`AND`.  The code tests `strings.Contains(rawQuery, "OR")`, a substring
test: the corrected statement below replaces "token" by "substring"; the
counterexample `C6_counterexample` shows the original claim false on the
query `ORGANIC`, whose only token is `ORGANIC`. -/
theorem C6_operator_selection (stem : List Char → List Char) (q : List Char)
    (p s : Nat) :
    ((Parse stem q p s).operator = "PHRASE" ↔ '"' ∈ cleanedQuery q) ∧
    ((Parse stem q p s).operator = "OR" ↔
      '"' ∉ cleanedQuery q ∧
      ∃ pre post, cleanedQuery q = pre ++ "OR".data ++ post) ∧
    ((Parse stem q p s).operator = "AND" ↔
      '"' ∉ cleanedQuery q ∧
      ¬ ∃ pre post, cleanedQuery q = pre ++ "OR".data ++ post) := by
  have hop : (Parse stem q p s).operator =
      (if (cleanedQuery q).contains '"' then "PHRASE"
       else if hasSubstr (cleanedQuery q) "OR".data then "OR"
       else "AND") := rfl
  have hmem : ((cleanedQuery q).contains '"' = true) ↔ '"' ∈ cleanedQuery q :=
    List.elem_iff
  have hsub : (hasSubstr (cleanedQuery q) "OR".data = true) ↔
      ∃ pre post, cleanedQuery q = pre ++ "OR".data ++ post :=
    hasSubstr_iff (cleanedQuery q) 'O' ['R']
  by_cases h1 : (cleanedQuery q).contains '"' = true
  · rw [hop, if_pos h1]
    exact ⟨⟨fun _ => hmem.mp h1, fun _ => rfl⟩,
           ⟨fun h => absurd h (by decide), fun ⟨hq, _⟩ => absurd (hmem.mp h1) hq⟩,
           ⟨fun h => absurd h (by decide), fun ⟨hq, _⟩ => absurd (hmem.mp h1) hq⟩⟩
  · have hA : '"' ∉ cleanedQuery q := fun h => h1 (hmem.mpr h)
    by_cases h2 : hasSubstr (cleanedQuery q) "OR".data = true
    · rw [hop, if_neg h1, if_pos h2]
      exact ⟨⟨fun h => absurd h (by decide), fun h => absurd (hmem.mpr h) h1⟩,
             ⟨fun _ => ⟨hA, hsub.mp h2⟩, fun _ => rfl⟩,
             ⟨fun h => absurd h (by decide), fun ⟨_, hno⟩ => absurd (hsub.mp h2) hno⟩⟩
    · rw [hop, if_neg h1, if_neg h2]
      have hB : ¬ ∃ pre post, cleanedQuery q = pre ++ "OR".data ++ post :=
        fun h => h2 (hsub.mpr h)
      exact ⟨⟨fun h => absurd h (by decide), fun h => absurd (hmem.mpr h) h1⟩,
             ⟨fun h => absurd h (by decide), fun ⟨_, hyes⟩ => absurd hyes hB⟩,
             ⟨fun _ => ⟨hA, hB⟩, fun _ => rfl⟩⟩

/-- C6 counterexample: on the raw query `ORGANIC` the code selects `OR`
although `OR` is not a whitespace token of the (filter-free) query, so the
claim's "token" reading is false. -/
theorem C6_counterexample :
    (Parse (fun t => t) "ORGANIC".data 1 10).operator = "OR" ∧
    "OR".data ∉ fields "ORGANIC".data ∧
    cleanedQuery "ORGANIC".data = "ORGANIC".data ∧
    '"' ∉ cleanedQuery "ORGANIC".data := by
  refine ⟨by decide, by decide, by decide, by decide⟩

/-! ## C10 — search handler pagination parameters -/

/-- C10: a missing, unparsable (including out-of-range), or below-1 `page`
parameter is silently replaced by 1; a missing, unparsable, or
out-of-`[1,100]` `page_size` parameter is silently replaced by 10;
otherwise the given values are used; and whenever the engine call
succeeds the handler answers success, so malformed pagination parameters
never cause a rejection. -/
theorem C10_handler_pagination {α : Type}
    (searchFn : List Char → Nat → Nat →
      Except SearchError (List (SearchResult α) × Nat))
    (qParam pageParam sizeParam : Option (List Char)) :
    (1 ≤ effectivePage pageParam ∧
     1 ≤ effectivePageSize sizeParam ∧ effectivePageSize sizeParam ≤ 100) ∧
    (pageParam = none → effectivePage pageParam = 1) ∧
    (∀ raw, pageParam = some raw → goAtoi raw = none →
      effectivePage pageParam = 1) ∧
    (∀ raw v, pageParam = some raw → goAtoi raw = some v → v < 1 →
      effectivePage pageParam = 1) ∧
    (∀ raw v, pageParam = some raw → goAtoi raw = some v → 1 ≤ v →
      effectivePage pageParam = v) ∧
    (sizeParam = none → effectivePageSize sizeParam = 10) ∧
    (∀ raw, sizeParam = some raw → goAtoi raw = none →
      effectivePageSize sizeParam = 10) ∧
    (∀ raw v, sizeParam = some raw → goAtoi raw = some v → (v < 1 ∨ 100 < v) →
      effectivePageSize sizeParam = 10) ∧
    (∀ raw v, sizeParam = some raw → goAtoi raw = some v → 1 ≤ v → v ≤ 100 →
      effectivePageSize sizeParam = v) ∧
    (∀ out, searchFn (qParam.getD [])
        (effectivePage pageParam).toNat (effectivePageSize sizeParam).toNat = .ok out →
      searchHandler searchFn qParam pageParam sizeParam =
        .ok { query := qParam.getD [], page := effectivePage pageParam,
              pageSize := effectivePageSize sizeParam, total := out.2,
              totalPages := ((out.2 : Int) + effectivePageSize sizeParam - 1) /
                effectivePageSize sizeParam,
              results := out.1 }) := by
  refine ⟨⟨?_, ?_, ?_⟩, ?_, ?_, ?_, ?_, ?_, ?_, ?_, ?_, ?_⟩
  · unfold effectivePage
    cases goAtoi (pageParam.getD "1".data) with
    | none => simp
    | some v =>
      by_cases hv : v < 1
      · simp [hv]
      · simp only [if_neg hv]
        omega
  · unfold effectivePageSize
    cases goAtoi (sizeParam.getD "10".data) with
    | none => simp
    | some v =>
      by_cases hv : v < 1 ∨ 100 < v
      · simp [if_pos hv]
      · simp only [if_neg hv]; omega
  · unfold effectivePageSize
    cases goAtoi (sizeParam.getD "10".data) with
    | none => simp
    | some v =>
      by_cases hv : v < 1 ∨ 100 < v
      · simp [if_pos hv]
      · simp only [if_neg hv]; omega
  · intro h; subst h; decide
  · intro raw h hnone; subst h
    simp [effectivePage, Option.getD, hnone]
  · intro raw v h hsome hv; subst h
    simp [effectivePage, Option.getD, hsome, hv]
  · intro raw v h hsome hv; subst h
    simp [effectivePage, Option.getD, hsome, Int.not_lt.mpr hv]
  · intro h; subst h; decide
  · intro raw h hnone; subst h
    simp [effectivePageSize, Option.getD, hnone]
  · intro raw v h hsome hv; subst h
    simp [effectivePageSize, Option.getD, hsome, hv]
  · intro raw v h hsome hv1 hv2; subst h
    have : ¬ (v < 1 ∨ 100 < v) := by omega
    simp [effectivePageSize, Option.getD, hsome, this]
  · intro out hok
    simp [searchHandler, hok]

/-- Witness for C10: a non-numeric `page` and an out-of-range `page_size`
with an engine stub. -/
theorem C10_handler_pagination_witness :
    effectivePage (some "abc".data) = 1 ∧
    effectivePageSize (some "500".data) = 10 ∧
    searchHandler (α := ℚ) (fun _ _ _ => .ok ([], 0))
        (some "q".data) (some "abc".data) (some "500".data) =
      .ok { query := "q".data, page := 1, pageSize := 10, total := 0,
            totalPages := (0 + 10 - 1) / 10, results := [] } := by
  have h := C10_handler_pagination (α := ℚ) (fun _ _ _ => .ok ([], 0))
    (some "q".data) (some "abc".data) (some "500".data)
  refine ⟨h.2.2.1 "abc".data rfl (by decide), ?_, ?_⟩
  · exact h.2.2.2.2.2.2.2.1 "500".data 500 rfl (by decide) (Or.inr (by decide))
  · have hp : effectivePage (some "abc".data) = 1 := by decide
    have hs : effectivePageSize (some "500".data) = 10 := by decide
    have := h.2.2.2.2.2.2.2.2.2 ([], 0) rfl
    rw [hp, hs] at this
    exact this

/-! ## C9 — zero valid query terms -/

/-- C9: a search whose parsed query has no surviving terms, or none of
whose terms resolves to a known term id, returns an empty result list with
total 0 and no error. -/
theorem C9_zero_terms_empty {α : Type} [LinearOrderedField α]
    (db : Database) (eng : EngineModel α) (q : List Char) (p s : Nat) :
    ((Parse eng.stem q p s).terms = [] → Search db eng q p s = .ok ([], 0)) ∧
    (resolveTermIDs db (Parse eng.stem q p s).terms = [] →
      Search db eng q p s = .ok ([], 0)) := by
  constructor
  · intro h
    have : (Parse eng.stem q p s).terms.isEmpty = true := by simp [h]
    simp [Search, this]
  · intro h
    by_cases hterms : (Parse eng.stem q p s).terms.isEmpty = true
    · simp [Search, hterms]
    · have : (resolveTermIDs db (Parse eng.stem q p s).terms).isEmpty = true := by
        simp [h]
      simp [Search, hterms, this]

/-- Witness for C9: the query `a` loses its only token to the length
filter; the query `dog` has a token but an empty terms table resolves
nothing. -/
theorem C9_zero_terms_empty_witness :
    ((Parse (fun t : List Char => t) "a".data 1 10).terms = [] ∧
      Search (⟨[], [], []⟩ : Database)
        (EngineModel.mk (α := ℚ) (fun t => t) id 0 1 ⟨fun d _ _ => d, fun t _ => t⟩)
        "a".data 1 10 = .ok ([], 0)) ∧
    (resolveTermIDs (⟨[], [], []⟩ : Database)
        (Parse (fun t => t) "dog".data 1 10).terms = [] ∧
      Search (⟨[], [], []⟩ : Database)
        (EngineModel.mk (α := ℚ) (fun t => t) id 0 1 ⟨fun d _ _ => d, fun t _ => t⟩)
        "dog".data 1 10 = .ok ([], 0)) := by
  constructor
  · have hterms : (Parse (fun t : List Char => t) "a".data 1 10).terms = [] := by
      decide
    exact ⟨hterms,
      (C9_zero_terms_empty (α := ℚ) ⟨[], [], []⟩
        (EngineModel.mk (fun t => t) id 0 1 ⟨fun d _ _ => d, fun t _ => t⟩)
        "a".data 1 10).1 hterms⟩
  · have hres : resolveTermIDs (⟨[], [], []⟩ : Database)
        (Parse (fun t : List Char => t) "dog".data 1 10).terms = [] := by
      decide
    exact ⟨hres,
      (C9_zero_terms_empty (α := ℚ) ⟨[], [], []⟩
        (EngineModel.mk (fun t => t) id 0 1 ⟨fun d _ _ => d, fun t _ => t⟩)
        "dog".data 1 10).2 hres⟩

/-! ## C2 — BM25 bounds -/

theorem sum_eq_zero_iff_of_nonneg (l : List ℝ) (h : ∀ x ∈ l, 0 ≤ x) :
    l.sum = 0 ↔ ∀ x ∈ l, x = 0 := by
  induction l with
  | nil => simp
  | cons a as ih =>
    have ha : 0 ≤ a := h a (by simp)
    have has : ∀ x ∈ as, 0 ≤ x := fun x hx => h x (by simp [hx])
    have hsum : 0 ≤ as.sum := List.sum_nonneg has
    rw [List.sum_cons, add_eq_zero_iff_of_nonneg ha hsum, ih has]
    simp

theorem calculateBM25Score_eq_sum {α : Type} [LinearOrderedField α]
    (docId : Int) (termIDs : List Int) (docLength : DocumentLength α)
    (idfValues : Int → Option α) (termFreqs : Int → Int → Nat) :
    calculateBM25Score docId termIDs docLength idfValues termFreqs =
      (termIDs.map (bm25Contribution docId docLength idfValues termFreqs)).sum := by
  have step : ∀ (init : α) (t : Int),
      bm25Step docId docLength idfValues termFreqs init t
        = init + bm25Contribution docId docLength idfValues termFreqs t := by
    intro init t
    simp only [bm25Step, bm25Contribution]
    by_cases htf : termFreqs docId t = 0
    · simp [htf]
    · simp only [if_neg htf]
      cases idfValues t with
      | none => simp
      | some idf => simp
  have key : ∀ (l : List Int) (init : α),
      l.foldl (bm25Step docId docLength idfValues termFreqs) init
        = init + (l.map (bm25Contribution docId docLength idfValues termFreqs)).sum := by
    intro l
    induction l with
    | nil => intro init; simp
    | cons t ts ih =>
      intro init
      rw [List.foldl_cons, step init t, ih]
      simp [add_assoc]
  have := key termIDs 0
  simpa [calculateBM25Score] using this

/-- The BM25 fraction is strictly positive when the term occurs and the
normalized document length is nonnegative. -/
theorem bm25_fraction_pos (tf : Nat) (htf : tf ≠ 0) (nl : ℝ) (hnl : 0 ≤ nl) :
    0 < ((tf : ℝ) * (12 / 10 + 1)) /
      ((tf : ℝ) + (12 / 10) * (1 - 3 / 4 + (3 / 4) * nl)) := by
  have htf1 : (1 : ℝ) ≤ (tf : ℝ) := by
    have : 1 ≤ tf := Nat.one_le_iff_ne_zero.mpr htf
    exact_mod_cast this
  have hnum : 0 < (tf : ℝ) * (12 / 10 + 1) := by nlinarith
  have hden : 0 < (tf : ℝ) + (12 / 10) * (1 - 3 / 4 + (3 / 4) * nl) := by nlinarith
  exact div_pos hnum hden

/-- C2, amended: the claim's universal bound `score ≥ 0` (and the
`score = 0` iff) fails because `IDF(t) = log(N/(df(t)+1))` can be negative
or zero (see `C2_counterexample`).  What holds: the score is 0 whenever no
query term occurs, and under nonnegative IDFs — i.e. `df(t)+1 ≤ N` for
every term with a document-frequency row — and a nonnegative normalized
document length, the score is ≥ 0 and equals 0 exactly when every query
term has zero term frequency in the document, no document-frequency row,
or `df(t)+1 = N`. -/
theorem C2_bm25_sign (db : Database) (totalDocs : Int) (docId : Int)
    (termIDs : List Int) (docLength : DocumentLength ℝ)
    (hnorm : 0 ≤ docLength.normalized)
    (hidf : ∀ t ∈ termIDs, ∀ df, docFrequency db t = some df →
      (df : ℝ) + 1 ≤ (totalDocs : ℝ)) :
    ((∀ t ∈ termIDs, termFreq db docId t = 0) →
      calculateBM25Score docId termIDs docLength
        (getIDFBatch Real.log totalDocs db termIDs) (termFreq db) = 0) ∧
    0 ≤ calculateBM25Score docId termIDs docLength
      (getIDFBatch Real.log totalDocs db termIDs) (termFreq db) ∧
    (calculateBM25Score docId termIDs docLength
        (getIDFBatch Real.log totalDocs db termIDs) (termFreq db) = 0 ↔
      ∀ t ∈ termIDs, termFreq db docId t = 0 ∨ docFrequency db t = none ∨
        ∃ df, docFrequency db t = some df ∧ (totalDocs : ℝ) = (df : ℝ) + 1) := by
  set K := getIDFBatch Real.log totalDocs db termIDs with hK
  have hKt : ∀ t ∈ termIDs, K t = (docFrequency db t).map
      (fun df : Nat => Real.log ((totalDocs : ℝ) / ((df : ℝ) + 1))) := by
    intro t ht
    have hcont : termIDs.contains t = true := List.elem_iff.mpr ht
    rw [hK]
    simp only [getIDFBatch, hcont, if_true]
    cases docFrequency db t <;> rfl
  have hcontrib_nonneg : ∀ t ∈ termIDs,
      0 ≤ bm25Contribution docId docLength K (termFreq db) t := by
    intro t ht
    simp only [bm25Contribution]
    by_cases htf : termFreq db docId t = 0
    · simp [htf]
    · simp only [if_neg htf]
      rw [hKt t ht]
      cases hdf : docFrequency db t with
      | none => simp
      | some df =>
        simp only [Option.map_some']
        have hdfpos : (0 : ℝ) < (df : ℝ) + 1 := by positivity
        have hratio : 1 ≤ (totalDocs : ℝ) / ((df : ℝ) + 1) := by
          rw [le_div_iff₀ hdfpos]
          simpa using hidf t ht df hdf
        have hlog : 0 ≤ Real.log ((totalDocs : ℝ) / ((df : ℝ) + 1)) :=
          Real.log_nonneg hratio
        have hfrac := bm25_fraction_pos (termFreq db docId t) htf
          docLength.normalized hnorm
        exact mul_nonneg hlog (le_of_lt hfrac)
  have hcontrib_zero : ∀ t ∈ termIDs,
      (bm25Contribution docId docLength K (termFreq db) t = 0 ↔
        termFreq db docId t = 0 ∨ docFrequency db t = none ∨
          ∃ df, docFrequency db t = some df ∧ (totalDocs : ℝ) = (df : ℝ) + 1) := by
    intro t ht
    simp only [bm25Contribution]
    by_cases htf : termFreq db docId t = 0
    · simp [htf]
    · simp only [if_neg htf]
      rw [hKt t ht]
      cases hdf : docFrequency db t with
      | none => simp
      | some df =>
        simp only [Option.map_some', htf, false_or]
        have hdfpos : (0 : ℝ) < (df : ℝ) + 1 := by positivity
        have hratio : 1 ≤ (totalDocs : ℝ) / ((df : ℝ) + 1) := by
          rw [le_div_iff₀ hdfpos]
          simpa using hidf t ht df hdf
        have hfrac := bm25_fraction_pos (termFreq db docId t) htf
          docLength.normalized hnorm
        constructor
        · intro h0
          have hlog0 : Real.log ((totalDocs : ℝ) / ((df : ℝ) + 1)) = 0 := by
            rcases mul_eq_zero.mp h0 with h | h
            · exact h
            · exact absurd h (ne_of_gt hfrac)
          have hone : (totalDocs : ℝ) / ((df : ℝ) + 1) = 1 := by
            rcases Real.log_eq_zero.mp hlog0 with h | h | h
            · exact absurd h (by linarith)
            · exact h
            · exact absurd h (by linarith)
          refine Or.inr ⟨df, rfl, ?_⟩
          field_simp at hone
          linarith
        · rintro (h | ⟨df', hdf', hN⟩)
          · simp at h
          · injection hdf' with hdd
            have hone : (totalDocs : ℝ) / ((df : ℝ) + 1) = 1 := by
              rw [hN, ← hdd]
              exact div_self (ne_of_gt hdfpos)
            rw [hone, Real.log_one, zero_mul]
  rw [calculateBM25Score_eq_sum]
  have hnn : ∀ x ∈ termIDs.map (bm25Contribution docId docLength K (termFreq db)),
      0 ≤ x := by
    intro x hx
    rcases List.mem_map.mp hx with ⟨t, ht, rfl⟩
    exact hcontrib_nonneg t ht
  refine ⟨?_, List.sum_nonneg hnn, ?_⟩
  · intro hall
    have : termIDs.map (bm25Contribution docId docLength K (termFreq db))
        = termIDs.map (fun _ => (0 : ℝ)) := by
      apply List.map_congr_left
      intro t ht
      simp [bm25Contribution, hall t ht]
    rw [this]
    simp
  · rw [sum_eq_zero_iff_of_nonneg _ hnn]
    constructor
    · intro h t ht
      exact (hcontrib_zero t ht).mp (h _ (List.mem_map.mpr ⟨t, ht, rfl⟩))
    · intro h x hx
      rcases List.mem_map.mp hx with ⟨t, ht, rfl⟩
      exact (hcontrib_zero t ht).mpr (h t ht)

/-- Witness for C2 at a store with two documents where the query term
appears in one (`df + 1 = N`, IDF `log 1 = 0`). -/
theorem C2_bm25_sign_witness :
    (let db : Database :=
      ⟨[⟨1, 1, [0]⟩],
       [⟨1, "u1".data, "t1".data, "d1".data, 1⟩,
        ⟨2, "u2".data, "t2".data, "d2".data, 1⟩],
       [("dog".data, 1)]⟩
     (0 : ℝ) ≤ (⟨1, 1, 1⟩ : DocumentLength ℝ).normalized ∧
     ((∀ t ∈ [(1 : Int)], termFreq db 1 t = 0) →
        calculateBM25Score 1 [1] (⟨1, 1, 1⟩ : DocumentLength ℝ)
          (getIDFBatch Real.log 2 db [1]) (termFreq db) = 0) ∧
     0 ≤ calculateBM25Score 1 [1] (⟨1, 1, 1⟩ : DocumentLength ℝ)
        (getIDFBatch Real.log 2 db [1]) (termFreq db) ∧
     (calculateBM25Score 1 [1] (⟨1, 1, 1⟩ : DocumentLength ℝ)
          (getIDFBatch Real.log 2 db [1]) (termFreq db) = 0 ↔
        ∀ t ∈ [(1 : Int)], termFreq db 1 t = 0 ∨ docFrequency db t = none ∨
          ∃ df, docFrequency db t = some df ∧ ((2 : Int) : ℝ) = (df : ℝ) + 1)) := by
  refine ⟨by norm_num, ?_⟩
  have h := C2_bm25_sign
    ⟨[⟨1, 1, [0]⟩],
     [⟨1, "u1".data, "t1".data, "d1".data, 1⟩,
      ⟨2, "u2".data, "t2".data, "d2".data, 1⟩],
     [("dog".data, 1)]⟩ 2 1 [1] ⟨1, 1, 1⟩ (by norm_num) ?_
  · exact h
  · intro t ht df hdf
    have ht1 : t = 1 := by simpa using ht
    subst ht1
    have hdf1 : docFrequency
        (⟨[⟨1, 1, [0]⟩],
          [⟨1, "u1".data, "t1".data, "d1".data, 1⟩,
           ⟨2, "u2".data, "t2".data, "d2".data, 1⟩],
          [("dog".data, 1)]⟩ : Database) 1 = some 1 := by decide
    rw [hdf1] at hdf
    cases hdf
    norm_num

/-- C2 counterexample: one document (`N = 1`) containing the single query
term (`df = 1`, `tf = 1`): the IDF is `log(1/2) < 0` and the BM25 score is
negative although a query term occurs, refuting `score ≥ 0` (and with it
the `= 0` iff). -/
theorem C2_counterexample :
    (let db : Database :=
      ⟨[⟨1, 1, [0]⟩], [⟨1, "u1".data, "t1".data, "d1".data, 1⟩],
       [("dog".data, 1)]⟩
     calculateBM25Score 1 [1] (⟨1, 1, 1⟩ : DocumentLength ℝ)
       (getIDFBatch Real.log 1 db [1]) (termFreq db) < 0 ∧
     termFreq db 1 1 = 1) := by
  constructor
  · rw [calculateBM25Score_eq_sum]
    have htf : termFreq
        (⟨[⟨1, 1, [0]⟩], [⟨1, "u1".data, "t1".data, "d1".data, 1⟩],
          [("dog".data, 1)]⟩ : Database) 1 1 = 1 := by decide
    have hdf : docFrequency
        (⟨[⟨1, 1, [0]⟩], [⟨1, "u1".data, "t1".data, "d1".data, 1⟩],
          [("dog".data, 1)]⟩ : Database) 1 = some 1 := by decide
    have hidf : getIDFBatch (α := ℝ) Real.log 1
        (⟨[⟨1, 1, [0]⟩], [⟨1, "u1".data, "t1".data, "d1".data, 1⟩],
          [("dog".data, 1)]⟩ : Database) [1] 1
        = some (Real.log ((1 : ℝ) / 2)) := by
      have hcont : ([1] : List Int).contains 1 = true := by decide
      simp only [getIDFBatch, hcont, if_true, hdf, Option.map_some']
      norm_num
      rw [Real.log_div (by norm_num) (by norm_num), Real.log_one]
      ring
    simp only [List.map_cons, List.map_nil, List.sum_cons, List.sum_nil,
      bm25Contribution, htf, hidf]
    have hlog : Real.log ((1 : ℝ) / 2) < 0 :=
      Real.log_neg (by norm_num) (by norm_num)
    norm_num
    nlinarith [hlog, Real.log_pos (by norm_num : (1 : ℝ) < 2),
      Real.log_div (by norm_num : (1 : ℝ) ≠ 0) (by norm_num : (2 : ℝ) ≠ 0)]
  · decide

/-! ## C3 — phrase matching -/

theorem wrap32_eq_self (x : Int) (h1 : -(2 ^ 31) ≤ x) (h2 : x < 2 ^ 31) :
    wrap32 x = x := by
  unfold wrap32
  have h3 : (0 : Int) ≤ x + 2 ^ 31 := by linarith
  have h4 : x + 2 ^ 31 < 2 ^ 32 := by
    have : (2 : Int) ^ 32 = 2 ^ 31 + 2 ^ 31 := by norm_num
    linarith
  rw [Int.emod_eq_of_lt h3 h4]
  ring

/-- C3: `checkPhraseMatch` reports a match exactly when some position
`p0` of the first term in the document starts a consecutive run: for every
`i > 0`, `p0 + i` lies in term `i`'s positions in that document.  The
hypothesis keeps `startPos + int32(i)` inside the `int32` range, as every
stored position (an emission index) is. -/
theorem C3_checkPhraseMatch_iff (docId : Int) (termIDs : List Int)
    (pbt : Int → List Posting) (hne : termIDs ≠ [])
    (hbound : ∀ i < termIDs.length,
      ∀ p ∈ lookupPositions docId (pbt (termIDs.getD i 0)),
        0 ≤ p ∧ p + termIDs.length ≤ 2 ^ 31) :
    (checkPhraseMatch docId termIDs pbt = true ↔
      ∃ p0 ∈ lookupPositions docId (pbt (termIDs.getD 0 0)),
        ∀ i : Nat, 0 < i → i < termIDs.length →
          (p0 + (i : Int)) ∈ lookupPositions docId (pbt (termIDs.getD i 0))) := by
  set tps := termIDs.map (fun tid => lookupPositions docId (pbt tid)) with htps
  have hlen : tps.length = termIDs.length := List.length_map _ _
  have hget : ∀ i, i < termIDs.length →
      tps.getD i [] = lookupPositions docId (pbt (termIDs.getD i 0)) := by
    intro i hi
    cases hx : termIDs.get? i with
    | none =>
      exact absurd (List.get?_eq_none.mp hx) (by omega)
    | some x =>
      rw [List.getD_eq_get?, htps, List.get?_map, hx, List.getD_eq_get?, hx]
      rfl
  have hmatch : checkPhraseMatch docId termIDs pbt =
      (if tps.any (fun l => l.isEmpty) then false
       else hasConsecutivePositions tps) := rfl
  by_cases hany : tps.any (fun l => l.isEmpty) = true
  · rw [hmatch, if_pos hany]
    rcases List.any_eq_true.mp hany with ⟨l, hl, hempty⟩
    rcases List.mem_iff_get.mp hl with ⟨⟨j, hj⟩, hlj⟩
    have hjlen : j < termIDs.length := by omega
    have hjget : tps.getD j [] = l := by
      rw [List.getD_eq_get?, List.get?_eq_get hj, hlj]
      rfl
    have hlnil : l = [] := by
      cases l with
      | nil => rfl
      | cons a as => simp at hempty
    constructor
    · intro h
      exact absurd h (by simp)
    · rintro ⟨p0, hp0, hall⟩
      exfalso
      cases Nat.eq_zero_or_pos j with
      | inl hj0 =>
        subst hj0
        rw [hget 0 hjlen] at hjget
        rw [hjget, hlnil] at hp0
        exact absurd hp0 (List.not_mem_nil p0)
      | inr hjpos =>
        have := hall j hjpos hjlen
        rw [hget j hjlen] at hjget
        rw [hjget, hlnil] at this
        exact absurd this (List.not_mem_nil _)
  · rw [hmatch, if_neg hany]
    obtain ⟨t0, ts, hterm⟩ : ∃ t0 ts, termIDs = t0 :: ts := by
      cases termIDs with
      | nil => exact absurd rfl hne
      | cons a l => exact ⟨a, l, rfl⟩
    · have h0len : 0 < termIDs.length := by rw [hterm]; simp
      have hfirst : lookupPositions docId (pbt (termIDs.getD 0 0)) =
          lookupPositions docId (pbt t0) := by rw [hterm]; rfl
      have htps' : tps = lookupPositions docId (pbt t0) :: ts.map
          (fun tid => lookupPositions docId (pbt tid)) := by
        rw [htps, hterm, List.map_cons]
      have hcons : hasConsecutivePositions tps =
          (lookupPositions docId (pbt t0)).any
            (fun p0 => checkConsecutiveFromPosition p0 tps) := by
        rw [htps']
        rfl
      rw [hcons, List.any_eq_true, hfirst]
      have hb0 : ∀ p0 ∈ lookupPositions docId (pbt t0), 0 ≤ p0 ∧
          p0 + (termIDs.length : Int) ≤ 2 ^ 31 := by
        intro p0 hp0
        exact hbound 0 h0len p0 (by rwa [hfirst])
      have hw12 : ∀ p0 ∈ lookupPositions docId (pbt t0), ∀ i : Nat,
          0 < i → i < termIDs.length →
          wrap32 (i : Int) = (i : Int) ∧ wrap32 (p0 + (i : Int)) = p0 + (i : Int) := by
        intro p0 hp0 i hipos hilen
        have h1 := (hb0 p0 hp0).1
        have h2 := (hb0 p0 hp0).2
        have hcast : (i : Int) < (termIDs.length : Int) := by exact_mod_cast hilen
        have hnn : (0 : Int) ≤ (i : Int) := Int.natCast_nonneg i
        constructor
        · exact wrap32_eq_self _ (by linarith) (by linarith)
        · exact wrap32_eq_self _ (by linarith) (by linarith)
      constructor
      · rintro ⟨p0, hp0, hchk⟩
        refine ⟨p0, hp0, ?_⟩
        intro i hipos hilen
        have hchk' : ∀ x : Nat, 1 ≤ x → x < 1 + (tps.length - 1) →
            wrap32 (p0 + wrap32 (x : Int)) ∈ tps.getD x [] := by
          simpa [checkConsecutiveFromPosition, List.all_eq_true,
            List.mem_range'_1] using hchk
        have hx2 : i < 1 + (tps.length - 1) := by omega
        have := hchk' i hipos hx2
        rcases hw12 p0 hp0 i hipos hilen with ⟨hw1, hw2⟩
        rw [hw1, hw2, hget i hilen] at this
        exact this
      · rintro ⟨p0, hp0, hall⟩
        refine ⟨p0, hp0, ?_⟩
        have key : ∀ x : Nat, 1 ≤ x → x < 1 + (tps.length - 1) →
            wrap32 (p0 + wrap32 (x : Int)) ∈ tps.getD x [] := by
          intro x hx1 hx2
          have hxlen : x < termIDs.length := by omega
          rcases hw12 p0 hp0 x (by omega) hxlen with ⟨hw1, hw2⟩
          rw [hw1, hw2, hget x hxlen]
          exact hall x (by omega) hxlen
        simpa [checkConsecutiveFromPosition, List.all_eq_true,
          List.mem_range'_1] using key

/-- Witness for C3: two terms; the phrase occurs (positions `0,2` and
`1,3`: `p0 = 0` works, and so does `p0 = 2`). -/
theorem C3_checkPhraseMatch_iff_witness :
    (let pbt : Int → List Posting := fun tid =>
      if tid = 10 then [⟨1, [0, 2]⟩] else if tid = 11 then [⟨1, [1, 3]⟩] else []
     ([(10 : Int), 11] ≠ ([] : List Int)) ∧
     (checkPhraseMatch 1 [10, 11] pbt = true ↔
       ∃ p0 ∈ lookupPositions 1 (pbt (([(10 : Int), 11]).getD 0 0)),
         ∀ i : Nat, 0 < i → i < ([(10 : Int), 11]).length →
           (p0 + (i : Int)) ∈ lookupPositions 1 (pbt (([(10 : Int), 11]).getD i 0)))) := by
  refine ⟨by decide, ?_⟩
  exact C3_checkPhraseMatch_iff 1 [10, 11]
    (fun tid => if tid = 10 then [⟨1, [0, 2]⟩] else if tid = 11 then [⟨1, [1, 3]⟩] else [])
    (by decide) (by decide)

/-! ## C4 — `CreateBatch` posting invariants -/

theorem enumFrom_foldl_emissions (t : List Char) :
    ∀ (l : List (List Char)) (n : Nat) (acc : List Nat),
      (List.enumFrom n l).foldl
        (fun acc pt => if pt.2 = t then acc ++ [pt.1] else acc) acc
        = acc ++ emAux t n l := by
  intro l
  induction l with
  | nil => intro n acc; simp [emAux]
  | cons x xs ih =>
    intro n acc
    rw [List.enumFrom_cons, List.foldl_cons]
    by_cases hx : x = t
    · simp only [hx, if_pos rfl]
      rw [ih]
      simp [emAux, hx]
    · simp only [hx, if_neg hx]
      rw [ih]
      simp [emAux, hx]

theorem emissionPositions_eq_emAux (tokens : List (List Char)) (t : List Char) :
    emissionPositions tokens t = emAux t 0 tokens := by
  show (List.enumFrom 0 tokens).foldl
      (fun acc pt => if pt.2 = t then acc ++ [pt.1] else acc) []
      = emAux t 0 tokens
  rw [enumFrom_foldl_emissions]
  simp

theorem emAux_mem_bounds (t : List Char) :
    ∀ (l : List (List Char)) (n p : Nat), p ∈ emAux t n l →
      n ≤ p ∧ p < n + l.length := by
  intro l
  induction l with
  | nil => intro n p hp; simp [emAux] at hp
  | cons x xs ih =>
    intro n p hp
    simp only [emAux, List.mem_append] at hp
    rcases hp with hp | hp
    · by_cases hx : x = t
      · simp [hx] at hp
        subst hp
        simp
      · simp [hx] at hp
    · have := ih (n + 1) p hp
      constructor <;> [omega; (simp only [List.length_cons]; omega)]

theorem emAux_pairwise (t : List Char) :
    ∀ (l : List (List Char)) (n : Nat), (emAux t n l).Pairwise (· < ·) := by
  intro l
  induction l with
  | nil => intro n; simp [emAux]
  | cons x xs ih =>
    intro n
    by_cases hx : x = t
    · subst hx
      rw [show emAux x n (x :: xs) = n :: emAux x (n + 1) xs from by simp [emAux]]
      rw [List.pairwise_cons]
      refine ⟨?_, ih (n + 1)⟩
      intro b hb
      have := emAux_mem_bounds x xs (n + 1) b hb
      omega
    · simp only [emAux, if_neg hx, List.nil_append]
      exact ih (n + 1)

theorem emAux_ne_nil_iff (t : List Char) :
    ∀ (l : List (List Char)) (n : Nat), emAux t n l ≠ [] ↔ t ∈ l := by
  intro l
  induction l with
  | nil => intro n; simp [emAux]
  | cons x xs ih =>
    intro n
    by_cases hx : x = t
    · simp [emAux, hx]
    · simp only [emAux, if_neg hx, List.nil_append, ih]
      constructor
      · intro h; exact List.mem_cons_of_mem x h
      · intro h
        rcases List.mem_cons.mp h with h | h
        · exact absurd h.symm hx
        · exact h

theorem emAux_length_eq_count (t : List Char) :
    ∀ (l : List (List Char)) (n : Nat),
      (emAux t n l).length = @List.count _ instBEqOfDecidableEq t l := by
  intro l
  induction l with
  | nil => intro n; simp [emAux]
  | cons x xs ih =>
    intro n
    by_cases hx : x = t
    · simp [emAux, hx, ih, List.count_cons]
    · simp [emAux, hx, ih, List.count_cons]

theorem getD_map_of_lt {α β : Type} (f : α → β) (l : List α) (i : Nat)
    (h : i < l.length) (d : β) :
    (l.map f).getD i d = f (l.get ⟨i, h⟩) := by
  rw [List.getD_eq_get?, List.get?_map, List.get?_eq_get h]
  rfl

/-- The posting invariants, stated over an arbitrary token stream. -/
theorem map_wrap32_cast (xs : List Nat) (h : ∀ p ∈ xs, p < 2 ^ 31) :
    xs.map (fun p => wrap32 (p : Int)) = xs.map (fun p => (p : Int)) := by
  induction xs with
  | nil => rfl
  | cons a as ih =>
    show wrap32 (a : Int) :: as.map (fun p => wrap32 (p : Int))
        = (a : Int) :: as.map (fun p => (p : Int))
    have ha : wrap32 (a : Int) = (a : Int) := by
      apply wrap32_eq_self
      · have := Int.natCast_nonneg a
        linarith
      · have haa : a < 2 ^ 31 := h a (List.mem_cons_self a as)
        exact_mod_cast haa
    rw [ha, ih (fun p hp => h p (List.mem_cons_of_mem a hp))]

theorem emissions_invariants (tokens : List (List Char))
    (hsize : tokens.length ≤ 2 ^ 31) :
    (∀ t, emissionPositions tokens t ≠ [] ↔ t ∈ tokens) ∧
    (∀ t, (emissionPositions tokens t).Pairwise (· < ·)) ∧
    ((tokens.dedup.map (fun t => (emissionPositions tokens t).length)).sum
      = tokens.length) ∧
    (∀ t, insertPostingPositions (emissionPositions tokens t) =
      (emissionPositions tokens t).map (fun p => (p : Int))) := by
  refine ⟨?_, ?_, ?_, ?_⟩
  · intro t
    rw [emissionPositions_eq_emAux]
    exact emAux_ne_nil_iff t tokens 0
  · intro t
    rw [emissionPositions_eq_emAux]
    exact emAux_pairwise t tokens 0
  · have hcongr : tokens.dedup.map (fun t => (emissionPositions tokens t).length)
        = tokens.dedup.map (fun t => @List.count _ instBEqOfDecidableEq t tokens) := by
      apply List.map_congr_left
      intro t _
      rw [emissionPositions_eq_emAux]
      exact emAux_length_eq_count t tokens 0
    rw [hcongr]
    exact List.sum_map_count_dedup_eq_length tokens
  · intro t
    show (emissionPositions tokens t).map (fun p => wrap32 (p : Int)) = _
    apply map_wrap32_cast
    intro p hp
    rw [emissionPositions_eq_emAux] at hp
    have hb := emAux_mem_bounds t tokens 0 p hp
    omega

/-- C4: for every batch and every document of it, `CreateBatch` records
for each term a positions list that is non-empty exactly when the term
occurs in the document's token stream and is strictly increasing;
`TokenCount` is the number of tokens, which equals the sum over the
document's distinct terms of the lengths of their positions lists; and
(for documents within the `int32` range, as all are) `InsertPosting`'s
32-bit conversion stores every position unchanged. -/
theorem C4_CreateBatch_invariants (stem : List Char → List Char)
    (docs : List WebPage) (dIdx : Nat) (hd : dIdx < docs.length)
    (hsize : (normalizePageContentIdx stem (pageText (docs.get ⟨dIdx, hd⟩))).length
      ≤ 2 ^ 31) :
    (∀ t, (CreateBatch stem docs).termMap t dIdx ≠ [] ↔
        t ∈ normalizePageContentIdx stem (pageText (docs.get ⟨dIdx, hd⟩))) ∧
    (∀ t, ((CreateBatch stem docs).termMap t dIdx).Pairwise (· < ·)) ∧
    ((CreateBatch stem docs).tokenCounts.getD dIdx 0 =
      (normalizePageContentIdx stem (pageText (docs.get ⟨dIdx, hd⟩))).length) ∧
    (((normalizePageContentIdx stem (pageText (docs.get ⟨dIdx, hd⟩))).dedup.map
        (fun t => ((CreateBatch stem docs).termMap t dIdx).length)).sum =
      (normalizePageContentIdx stem (pageText (docs.get ⟨dIdx, hd⟩))).length) ∧
    (∀ t, insertPostingPositions ((CreateBatch stem docs).termMap t dIdx) =
      ((CreateBatch stem docs).termMap t dIdx).map (fun p => (p : Int))) := by
  have hmap : ∀ t, (CreateBatch stem docs).termMap t dIdx
      = emissionPositions
          (normalizePageContentIdx stem (pageText (docs.get ⟨dIdx, hd⟩))) t := by
    intro t
    show (match docs.get? dIdx with
      | some d => emissionPositions (normalizePageContentIdx stem (pageText d)) t
      | none => []) = _
    rw [List.get?_eq_get hd]
  have haux := emissions_invariants
    (normalizePageContentIdx stem (pageText (docs.get ⟨dIdx, hd⟩))) hsize
  refine ⟨?_, ?_, ?_, ?_, ?_⟩
  · intro t
    rw [hmap]
    exact haux.1 t
  · intro t
    rw [hmap]
    exact haux.2.1 t
  · exact getD_map_of_lt
      (fun d => (normalizePageContentIdx stem (pageText d)).length) docs dIdx hd 0
  · have hfun : (fun t => ((CreateBatch stem docs).termMap t dIdx).length)
        = (fun t => (emissionPositions
            (normalizePageContentIdx stem (pageText (docs.get ⟨dIdx, hd⟩))) t).length) :=
      funext (fun t => by rw [hmap])
    rw [hfun]
    exact haux.2.2.1
  · intro t
    rw [hmap]
    exact haux.2.2.2 t

set_option maxHeartbeats 1000000 in
/-- Witness for C4: one raw page whose title tokenizes to `cat, dog`. -/
theorem C4_CreateBatch_invariants_witness :
    ((0 : Nat) < ([⟨"cat dog".data, [], [], []⟩] : List WebPage).length) ∧
    ((normalizePageContentIdx (fun t => t)
        (pageText (([⟨"cat dog".data, [], [], []⟩] : List WebPage).get
          ⟨0, by decide⟩))).length ≤ 2 ^ 31) ∧
    ((CreateBatch (fun t => t) [⟨"cat dog".data, [], [], []⟩]).termMap
        "cat".data 0 = [0] ∧
     (CreateBatch (fun t => t) [⟨"cat dog".data, [], [], []⟩]).termMap
        "dog".data 0 = [1] ∧
     (CreateBatch (fun t => t) [⟨"cat dog".data, [], [], []⟩]).tokenCounts.getD
        0 0 = 2) ∧
    (∀ t, ((CreateBatch (fun t => t)
        [⟨"cat dog".data, [], [], []⟩]).termMap t 0).Pairwise (· < ·)) := by
  refine ⟨by decide, by decide, ⟨by decide, by decide, by decide⟩, ?_⟩
  exact (C4_CreateBatch_invariants (fun t => t) [⟨"cat dog".data, [], [], []⟩]
    0 (by decide) (by decide)).2.1


/-! ## C7 — pagination -/

theorem Parse_page (stem : List Char → List Char) (q : List Char) (p s : Nat) :
    (Parse stem q p s).page = p := rfl

theorem Parse_pageSize (stem : List Char → List Char) (q : List Char) (p s : Nat) :
    (Parse stem q p s).pageSize = s := rfl

theorem Parse_terms_indep (stem : List Char → List Char) (q : List Char)
    (p s p2 s2 : Nat) : (Parse stem q p s).terms = (Parse stem q p2 s2).terms := rfl

theorem Parse_operator_indep (stem : List Char → List Char) (q : List Char)
    (p s p2 s2 : Nat) :
    (Parse stem q p s).operator = (Parse stem q p2 s2).operator := rfl

theorem Parse_filters_indep (stem : List Char → List Char) (q : List Char)
    (p s p2 s2 : Nat) :
    (Parse stem q p s).filters = (Parse stem q p2 s2).filters := rfl

theorem paginateScored_nil {α : Type} [LinearOrderedField α] (p s : Nat) :
    paginateScored ([] : List (ScoredDoc α)) p s = [] := by
  simp [paginateScored]

theorem paginateScored_slice {α : Type} [LinearOrderedField α]
    (xs : List (ScoredDoc α)) (p s : Nat) (hp : 1 ≤ p) :
    paginateScored xs p s = (xs.take (p * s)).drop ((p - 1) * s) := by
  obtain ⟨m, rfl⟩ : ∃ m, p = m + 1 := ⟨p - 1, by omega⟩
  simp only [paginateScored, Nat.add_sub_cancel]
  have hms : m * s + s = (m + 1) * s := (add_one_mul m s).symm
  by_cases h1 : xs.length ≤ m * s
  · rw [if_pos h1]
    symm
    apply List.drop_eq_nil_of_le
    calc (xs.take ((m + 1) * s)).length ≤ xs.length := by
          rw [List.length_take]; omega
      _ ≤ m * s := h1
  · rw [if_neg h1, hms]
    by_cases h2 : xs.length < (m + 1) * s
    · rw [if_pos h2, List.take_length, List.take_all_of_le (le_of_lt h2)]
    · rw [if_neg h2]

theorem paginateScored_take_drop {α : Type} [LinearOrderedField α]
    (xs : List (ScoredDoc α)) (p s : Nat) (hp : 1 ≤ p) :
    paginateScored xs p s = (xs.drop ((p - 1) * s)).take s := by
  rw [paginateScored_slice xs p s hp, List.drop_take]
  congr 1
  obtain ⟨m, rfl⟩ : ∃ m, p = m + 1 := ⟨p - 1, by omega⟩
  rw [Nat.add_sub_cancel, add_one_mul, Nat.add_sub_cancel_left]

theorem flatten_take_drop {β : Type} (s : Nat) :
    ∀ (n : Nat) (xs : List β), xs.length ≤ n * s →
      ((List.range n).map (fun k => (xs.drop (k * s)).take s)).flatten = xs := by
  intro n
  induction n with
  | zero =>
    intro xs h
    have hx : xs = [] := List.eq_nil_of_length_eq_zero (by omega)
    subst hx; rfl
  | succ n ih =>
    intro xs h
    rw [List.range_succ_eq_map, List.map_cons, List.map_map]
    have hcomp : List.map ((fun k => (xs.drop (k * s)).take s) ∘ Nat.succ)
          (List.range n)
        = List.map (fun k => ((xs.drop s).drop (k * s)).take s) (List.range n) := by
      apply List.map_congr_left
      intro k _
      simp only [Function.comp_apply]
      rw [List.drop_drop, Nat.succ_mul, Nat.add_comm (k * s) s]
    rw [hcomp]
    show (xs.drop (0 * s)).take s ++ _ = xs
    rw [ih (xs.drop s) (by rw [List.length_drop, Nat.succ_mul] at *; omega)]
    simp only [Nat.zero_mul, List.drop_zero]
    exact List.take_append_drop s xs

theorem booleanSearchOptimized_congr (db : Database) (plan plan2 : QueryPlan)
    (h1 : plan.termIDs = plan2.termIDs) (h2 : plan.operator = plan2.operator)
    (h3 : plan.filters = plan2.filters) :
    booleanSearchOptimized db plan = booleanSearchOptimized db plan2 := by
  simp only [booleanSearchOptimized, h1, h2, h3]

theorem phraseSearchOptimized_congr (db : Database) (plan plan2 : QueryPlan)
    (h1 : plan.termIDs = plan2.termIDs) (h2 : plan.operator = plan2.operator)
    (h3 : plan.filters = plan2.filters) :
    phraseSearchOptimized db plan = phraseSearchOptimized db plan2 := by
  simp only [phraseSearchOptimized, h1,
    booleanSearchOptimized_congr db plan plan2 h1 h2 h3]

theorem searchCandidates_main {α : Type} [LinearOrderedField α]
    (db : Database) (eng : EngineModel α) (q : List Char) (p s : Nat)
    (h1 : ¬ (Parse eng.stem q p s).terms.isEmpty = true)
    (h2 : ¬ (resolveTermIDs db (Parse eng.stem q p s).terms).isEmpty = true) :
    searchCandidates db eng q p s =
      ({ Parse eng.stem q p s with
           termIDs := resolveTermIDs db (Parse eng.stem q p s).terms },
       if (Parse eng.stem q p s).operator = "PHRASE"
       then phraseSearchOptimized db
         { Parse eng.stem q p s with
             termIDs := resolveTermIDs db (Parse eng.stem q p s).terms }
       else booleanSearchOptimized db
         { Parse eng.stem q p s with
             termIDs := resolveTermIDs db (Parse eng.stem q p s).terms }) := by
  simp only [searchCandidates]
  rw [if_neg h1, if_neg h2]

theorem searchScoredDocs_main {α : Type} [LinearOrderedField α]
    (db : Database) (eng : EngineModel α) (q : List Char) (p s : Nat)
    (h1 : ¬ (Parse eng.stem q p s).terms.isEmpty = true)
    (h2 : ¬ (resolveTermIDs db (Parse eng.stem q p s).terms).isEmpty = true) :
    searchScoredDocs db eng q p s =
      (if (if (Parse eng.stem q p s).operator = "PHRASE"
           then phraseSearchOptimized db
             { Parse eng.stem q p s with
                 termIDs := resolveTermIDs db (Parse eng.stem q p s).terms }
           else booleanSearchOptimized db
             { Parse eng.stem q p s with
                 termIDs := resolveTermIDs db (Parse eng.stem q p s).terms }).isEmpty
       then []
       else rankResultsOptimized db eng.logFn eng.totalDocs eng.avgTokenCount
         (if (Parse eng.stem q p s).operator = "PHRASE"
          then phraseSearchOptimized db
            { Parse eng.stem q p s with
                termIDs := resolveTermIDs db (Parse eng.stem q p s).terms }
          else booleanSearchOptimized db
            { Parse eng.stem q p s with
                termIDs := resolveTermIDs db (Parse eng.stem q p s).terms })
         (resolveTermIDs db (Parse eng.stem q p s).terms)) := by
  unfold searchScoredDocs
  rw [searchCandidates_main db eng q p s h1 h2]

theorem searchScoredDocs_page_indep {α : Type} [LinearOrderedField α]
    (db : Database) (eng : EngineModel α) (q : List Char) (p s p2 s2 : Nat) :
    searchScoredDocs db eng q p s = searchScoredDocs db eng q p2 s2 := by
  have hterms := Parse_terms_indep eng.stem q p s p2 s2
  have hop := Parse_operator_indep eng.stem q p s p2 s2
  have hfil := Parse_filters_indep eng.stem q p s p2 s2
  by_cases h1 : (Parse eng.stem q p s).terms.isEmpty = true
  · have h1b : (Parse eng.stem q p2 s2).terms.isEmpty = true := hterms ▸ h1
    simp [searchScoredDocs, searchCandidates, h1, h1b]
  · have h1b : ¬ (Parse eng.stem q p2 s2).terms.isEmpty = true := hterms ▸ h1
    by_cases h2 : (resolveTermIDs db (Parse eng.stem q p s).terms).isEmpty = true
    · have h2b : (resolveTermIDs db (Parse eng.stem q p2 s2).terms).isEmpty = true :=
        hterms ▸ h2
      simp [searchScoredDocs, searchCandidates, h1, h1b, h2, h2b]
    · have h2b : ¬ (resolveTermIDs db (Parse eng.stem q p2 s2).terms).isEmpty = true :=
        hterms ▸ h2
      have hdocs :
          (if (Parse eng.stem q p s).operator = "PHRASE"
            then phraseSearchOptimized db
              { Parse eng.stem q p s with
                  termIDs := resolveTermIDs db (Parse eng.stem q p s).terms }
            else booleanSearchOptimized db
              { Parse eng.stem q p s with
                  termIDs := resolveTermIDs db (Parse eng.stem q p s).terms })
          = (if (Parse eng.stem q p2 s2).operator = "PHRASE"
            then phraseSearchOptimized db
              { Parse eng.stem q p2 s2 with
                  termIDs := resolveTermIDs db (Parse eng.stem q p2 s2).terms }
            else booleanSearchOptimized db
              { Parse eng.stem q p2 s2 with
                  termIDs := resolveTermIDs db (Parse eng.stem q p2 s2).terms }) := by
        rw [hop, hterms]
        by_cases hph : (Parse eng.stem q p2 s2).operator = "PHRASE"
        · rw [if_pos hph, if_pos hph]
          exact phraseSearchOptimized_congr db _ _ rfl hop hfil
        · rw [if_neg hph, if_neg hph]
          exact booleanSearchOptimized_congr db _ _ rfl hop hfil
      rw [searchScoredDocs_main db eng q p s h1 h2,
        searchScoredDocs_main db eng q p2 s2 h1b h2b, hdocs, hterms]

theorem Search_main {α : Type} [LinearOrderedField α]
    (db : Database) (eng : EngineModel α) (q : List Char) (p s : Nat)
    (h1 : ¬ (Parse eng.stem q p s).terms.isEmpty = true)
    (h2 : ¬ (resolveTermIDs db (Parse eng.stem q p s).terms).isEmpty = true) :
    Search db eng q p s =
      (if (if (Parse eng.stem q p s).operator = "PHRASE"
          then phraseSearchOptimized db
            { Parse eng.stem q p s with
                termIDs := resolveTermIDs db (Parse eng.stem q p s).terms }
          else booleanSearchOptimized db
            { Parse eng.stem q p s with
                termIDs := resolveTermIDs db (Parse eng.stem q p s).terms }).isEmpty = true
       then Except.ok ([], 0)
       else Except.ok
         (fetchDocumentDetailsBatch db eng.pres
           (paginateScored
             (rankResultsOptimized db eng.logFn eng.totalDocs eng.avgTokenCount
               (if (Parse eng.stem q p s).operator = "PHRASE"
          then phraseSearchOptimized db
            { Parse eng.stem q p s with
                termIDs := resolveTermIDs db (Parse eng.stem q p s).terms }
          else booleanSearchOptimized db
            { Parse eng.stem q p s with
                termIDs := resolveTermIDs db (Parse eng.stem q p s).terms })
               (resolveTermIDs db (Parse eng.stem q p s).terms))
             (Parse eng.stem q p s).page (Parse eng.stem q p s).pageSize)
           (Parse eng.stem q p s).terms,
          (rankResultsOptimized db eng.logFn eng.totalDocs eng.avgTokenCount
            (if (Parse eng.stem q p s).operator = "PHRASE"
          then phraseSearchOptimized db
            { Parse eng.stem q p s with
                termIDs := resolveTermIDs db (Parse eng.stem q p s).terms }
          else booleanSearchOptimized db
            { Parse eng.stem q p s with
                termIDs := resolveTermIDs db (Parse eng.stem q p s).terms })
            (resolveTermIDs db (Parse eng.stem q p s).terms)).length)) := by
  simp only [Search]
  rw [if_neg h1, if_neg h2]

theorem Search_eq_assembled {α : Type} [LinearOrderedField α]
    (db : Database) (eng : EngineModel α) (q : List Char) (p s : Nat) :
    Search db eng q p s = Except.ok
      (fetchDocumentDetailsBatch db eng.pres
        (paginateScored (searchScoredDocs db eng q p s) p s)
        (Parse eng.stem q p s).terms,
       (searchScoredDocs db eng q p s).length) := by
  by_cases h1 : (Parse eng.stem q p s).terms.isEmpty = true
  · have hScored : searchScoredDocs db eng q p s = [] := by
      simp [searchScoredDocs, searchCandidates, h1]
    rw [hScored]
    simp [Search, h1, paginateScored_nil, fetchDocumentDetailsBatch]
  · by_cases h2 : (resolveTermIDs db (Parse eng.stem q p s).terms).isEmpty = true
    · have hScored : searchScoredDocs db eng q p s = [] := by
        simp [searchScoredDocs, searchCandidates, h1, h2]
      rw [hScored]
      simp [Search, h1, h2, paginateScored_nil, fetchDocumentDetailsBatch]
    · rw [Search_main db eng q p s h1 h2, searchScoredDocs_main db eng q p s h1 h2]
      by_cases h3 : (if (Parse eng.stem q p s).operator = "PHRASE"
          then phraseSearchOptimized db
            { Parse eng.stem q p s with
                termIDs := resolveTermIDs db (Parse eng.stem q p s).terms }
          else booleanSearchOptimized db
            { Parse eng.stem q p s with
                termIDs := resolveTermIDs db (Parse eng.stem q p s).terms }).isEmpty = true
      · simp only [if_pos h3]
        simp [paginateScored_nil, fetchDocumentDetailsBatch]
      · simp only [if_neg h3]
        rw [Parse_page, Parse_pageSize]

/-- C7: for every engine state and raw query, with page `p ≥ 1` and page
size `s ≥ 1`, `Search` returns the assembled slice
`[(p-1)*s, min(p*s, total))` of the ranked candidate list together with
the full candidate count; the slice is empty when `(p-1)*s ≥ total`; the
concatenation of successive pages is the whole ranked list; if the ranked
list has no duplicates no element is repeated across pages; and the ranked
list (hence the returned total) does not depend on the requested page or
page size. -/
theorem C7_search_pagination {α : Type} [LinearOrderedField α]
    (db : Database) (eng : EngineModel α) (q : List Char) (p s : Nat)
    (hp : 1 ≤ p) (hs : 1 ≤ s) :
    (Search db eng q p s = Except.ok
        (fetchDocumentDetailsBatch db eng.pres
          (((searchScoredDocs db eng q p s).take (p * s)).drop ((p - 1) * s))
          (Parse eng.stem q p s).terms,
         (searchScoredDocs db eng q p s).length)) ∧
    (paginateScored (searchScoredDocs db eng q p s) p s
      = ((searchScoredDocs db eng q p s).take (p * s)).drop ((p - 1) * s)) ∧
    ((searchScoredDocs db eng q p s).length ≤ (p - 1) * s →
      paginateScored (searchScoredDocs db eng q p s) p s = []) ∧
    (∀ n, (searchScoredDocs db eng q p s).length ≤ n * s →
      ((List.range n).map (fun k =>
        paginateScored (searchScoredDocs db eng q p s) (k + 1) s)).flatten
        = searchScoredDocs db eng q p s) ∧
    (∀ n, (searchScoredDocs db eng q p s).length ≤ n * s →
      (searchScoredDocs db eng q p s).Nodup →
      ((List.range n).map (fun k =>
        paginateScored (searchScoredDocs db eng q p s) (k + 1) s)).Pairwise
        List.Disjoint) ∧
    (∀ p2 s2 : Nat, searchScoredDocs db eng q p2 s2 = searchScoredDocs db eng q p s) := by
  have hpages : ∀ k : Nat,
      paginateScored (searchScoredDocs db eng q p s) (k + 1) s
        = ((searchScoredDocs db eng q p s).drop (k * s)).take s := by
    intro k
    rw [paginateScored_take_drop _ (k + 1) s (by omega), Nat.add_sub_cancel]
  refine ⟨?_, paginateScored_slice _ p s hp, ?_, ?_, ?_, ?_⟩
  · rw [Search_eq_assembled db eng q p s, paginateScored_slice _ p s hp]
  · intro hle
    rw [paginateScored_slice _ p s hp]
    apply List.drop_eq_nil_of_le
    rw [List.length_take]
    omega
  · intro n hn
    rw [List.map_congr_left (fun k _ => hpages k)]
    exact flatten_take_drop s n _ hn
  · intro n hn hnd
    rw [List.map_congr_left (fun k _ => hpages k)]
    have hj := flatten_take_drop s n (searchScoredDocs db eng q p s) hn
    rw [← hj] at hnd
    exact (List.nodup_join.mp hnd).2
  · intro p2 s2
    exact searchScoredDocs_page_indep db eng q p2 s2 p s

/-- Witness for C7: two one-result pages over `dbW`; page 2 with page
size 1 is the slice `[1, 2)` of the two ranked candidates, and the ranked
list is the same whatever page is requested. -/
theorem C7_search_pagination_witness :
    (1 ≤ 2 ∧ 1 ≤ 1) ∧
    paginateScored (searchScoredDocs dbW engW "dog".data 2 1) 2 1
      = ((searchScoredDocs dbW engW "dog".data 2 1).take (2 * 1)).drop ((2 - 1) * 1) ∧
    searchScoredDocs dbW engW "dog".data 1 5
      = searchScoredDocs dbW engW "dog".data 2 1 :=
  ⟨⟨by decide, by decide⟩,
   (C7_search_pagination dbW engW "dog".data 2 1 (by decide) (by decide)).2.1,
   (C7_search_pagination dbW engW "dog".data 2 1 (by decide)
     (by decide)).2.2.2.2.2 1 5⟩

/-! ## C8 — result deduplication -/

/-- C8: the spec requires the returned result list to contain no two
results whose URLs agree after lowercasing and stripping a trailing
slash, but `Search` never invokes `deduplicateResults`: on `dbW` the
query `dog` returns two results whose normalized URLs are both
`http://example.com`, and the source's own `deduplicateResults` would
have collapsed them to one. -/
theorem C8_duplicate_normalized_urls :
    ∃ res : List (SearchResult ℚ),
      Search dbW engW "dog".data 1 10 = Except.ok (res, 2) ∧
      res.map (fun r => normalizeResultURL r.url)
        = ["http://example.com".data, "http://example.com".data] ∧
      ¬ (res.map (fun r => normalizeResultURL r.url)).Nodup ∧
      (deduplicateResults res).length = 1 := by
  have h1 : ¬ (Parse engW.stem "dog".data 1 10).terms.isEmpty = true := by decide
  have h2 : ¬ (resolveTermIDs dbW
      (Parse engW.stem "dog".data 1 10).terms).isEmpty = true := by decide
  have hD : (if (Parse engW.stem "dog".data 1 10).operator = "PHRASE"
          then phraseSearchOptimized dbW
            { Parse engW.stem "dog".data 1 10 with
                termIDs := resolveTermIDs dbW (Parse engW.stem "dog".data 1 10).terms }
          else booleanSearchOptimized dbW
            { Parse engW.stem "dog".data 1 10 with
                termIDs := resolveTermIDs dbW (Parse engW.stem "dog".data 1 10).terms })
      = [1, 2] := by decide
  have hR : resolveTermIDs dbW (Parse engW.stem "dog".data 1 10).terms = [10] := by
    decide
  have hS : (calculateBM25Score 2 [10] (docLengthOf dbW engW.avgTokenCount 2)
        (getIDFBatch engW.logFn engW.totalDocs dbW [10]) (termFreq dbW) : ℚ)
      = scoreW := rfl
  have hrank : rankResultsOptimized dbW engW.logFn engW.totalDocs engW.avgTokenCount
        [1, 2] [10]
      = [(⟨1, scoreW⟩ : ScoredDoc ℚ), ⟨2, scoreW⟩] := by
    simp only [rankResultsOptimized]
    rw [if_neg (show ¬(([1, 2] : List Int).isEmpty = true) by decide),
      List.map_cons, List.map_cons, List.map_nil, hS]
    show sortByScoreDesc [⟨1, scoreW⟩, ⟨2, scoreW⟩] = _
    simp only [sortByScoreDesc, List.insertionSort, List.orderedInsert]
    rw [if_pos (le_refl scoreW)]
  have hpag : paginateScored [(⟨1, scoreW⟩ : ScoredDoc ℚ), ⟨2, scoreW⟩] 1 10
      = [⟨1, scoreW⟩, ⟨2, scoreW⟩] := by
    rw [paginateScored_slice _ 1 10 (by omega)]
    rfl
  refine ⟨fetchDocumentDetailsBatch dbW engW.pres
    [(⟨1, scoreW⟩ : ScoredDoc ℚ), ⟨2, scoreW⟩]
    (Parse engW.stem "dog".data 1 10).terms, ?_, by decide, by decide, by decide⟩
  rw [Search_main dbW engW "dog".data 1 10 h1 h2, hD,
    if_neg (show ¬(([1, 2] : List Int).isEmpty = true) by decide), hR, hrank,
    Parse_page, Parse_pageSize, hpag]
  rfl

end Searchyfy
